import Mathlib

/-!
Verification development for the runtime core of a small Rust game engine
(entity graph, space subsystem, instance synchronization engine, deferred
event bus, identity registry).

The Rust sources are shallowly embedded: scalar coordinates (f32 in the
source) are modelled as rationals, since every operation the claims touch
is exact assignment or componentwise addition; shared cells are modelled
by indices into the owning vectors; fallible code returns Option.
-/

namespace Engine

/-- Rational 3-vector, standing in for cgmath Vector3 of f32. -/
structure Vec3 where
  x : ℚ
  y : ℚ
  z : ℚ
deriving DecidableEq, Repr

/-- Componentwise addition, as Vector3 AddAssign. -/
def Vec3.add (a b : Vec3) : Vec3 :=
  ⟨a.x + b.x, a.y + b.y, a.z + b.z⟩

/-- Zero vector, Vector3 zero. -/
def Vec3.zero : Vec3 := ⟨0, 0, 0⟩

/-- Rational quaternion, scalar part first as in cgmath Quaternion new (s, x, y, z). -/
structure Quat where
  s : ℚ
  x : ℚ
  y : ℚ
  z : ℚ
deriving DecidableEq, Repr

/-- Componentwise addition, as Quaternion AddAssign. -/
def Quat.add (a b : Quat) : Quat :=
  ⟨a.s + b.s, a.x + b.x, a.y + b.y, a.z + b.z⟩

/-- Identity quaternion (1, 0, 0, 0), the default rotation of InstanceDesc. -/
def Quat.one : Quat := ⟨1, 0, 0, 0⟩

/-- Response enum from src/event.rs: the ternary consumption value. -/
inductive Response where
  | No
  | Weak
  | Strong
deriving DecidableEq, Repr, Fintype

/-- Embedding of Response::with from src/event.rs lines 49-57: Strong wins,
then Weak, else No. -/
def Response.with : Response → Response → Response
  | a, b =>
    if a = Response.Strong ∨ b = Response.Strong then Response.Strong
    else if a = Response.Weak ∨ b = Response.Weak then Response.Weak
    else Response.No

/-- Rank of a Response in the order No < Weak < Strong. -/
def Response.rank : Response → ℕ
  | Response.No => 0
  | Response.Weak => 1
  | Response.Strong => 2

/-- The greater of two responses under the order No < Weak < Strong
(this definition follows the wording of the specification). -/
def Response.latticeMax (a b : Response) : Response :=
  if a.rank ≤ b.rank then b else a

/-! ## Instance synchronization engine (src/render/instance.rs) -/

/-- InstanceType from src/render/instance.rs. -/
inductive InstanceType where
  | Model
  | Sprite
deriving DecidableEq, Repr

/-- InstanceChange from src/render/instance.rs lines 145-150. -/
inductive InstanceChange where
  | PositionSet (pos : Vec3)
  | PositionAdd (pos : Vec3)
  | RotationSet (rot : Quat)
  | RotationAdd (rot : Quat)
deriving DecidableEq, Repr

/-- Column-major 4x4 matrix as a flat list of 16 rationals; entry at
column c, row r sits at index 4 * c + r (the cgmath layout). -/
abbrev Mat4 := List ℚ

/-- Column-major 3x3 matrix as a flat list of 9 rationals. -/
abbrev Mat3 := List ℚ

/-- Matrix4 from_translation: identity linear part, translation in the last column. -/
def mat4FromTranslation (t : Vec3) : Mat4 :=
  [1, 0, 0, 0, 0, 1, 0, 0, 0, 0, 1, 0, t.x, t.y, t.z, 1]

/-- Matrix4 built from a quaternion, the cgmath From Quaternion formula
(no normalisation; polynomial in the components). -/
def mat4FromQuat (q : Quat) : Mat4 :=
  let x2 := q.x + q.x
  let y2 := q.y + q.y
  let z2 := q.z + q.z
  let xx2 := x2 * q.x
  let xy2 := x2 * q.y
  let xz2 := x2 * q.z
  let yy2 := y2 * q.y
  let yz2 := y2 * q.z
  let zz2 := z2 * q.z
  let sy2 := y2 * q.s
  let sz2 := z2 * q.s
  let sx2 := x2 * q.s
  [1 - yy2 - zz2, xy2 + sz2, xz2 - sy2, 0,
   xy2 - sz2, 1 - xx2 - zz2, yz2 + sx2, 0,
   xz2 + sy2, yz2 - sx2, 1 - xx2 - yy2, 0,
   0, 0, 0, 1]

/-- Matrix3 built from a quaternion, the cgmath From Quaternion formula. -/
def mat3FromQuat (q : Quat) : Mat3 :=
  let x2 := q.x + q.x
  let y2 := q.y + q.y
  let z2 := q.z + q.z
  let xx2 := x2 * q.x
  let xy2 := x2 * q.y
  let xz2 := x2 * q.z
  let yy2 := y2 * q.y
  let yz2 := y2 * q.z
  let zz2 := z2 * q.z
  let sy2 := y2 * q.s
  let sz2 := z2 * q.s
  let sx2 := x2 * q.s
  [1 - yy2 - zz2, xy2 + sz2, xz2 - sy2,
   xy2 - sz2, 1 - xx2 - zz2, yz2 + sx2,
   xz2 + sy2, yz2 - sx2, 1 - xx2 - yy2]

/-- Product of two column-major 4x4 matrices. -/
def mat4Mul (a b : Mat4) : Mat4 :=
  (List.range 16).map (fun i =>
    let c := i / 4
    let r := i % 4
    (List.range 4).foldl (fun acc k => acc + a.getD (4 * k + r) 0 * b.getD (4 * c + k) 0) 0)

/-- Instance3DRaw from src/render/instance.rs: packed model matrix plus normal matrix. -/
structure Instance3DRaw where
  model : Mat4
  normal : Mat3
deriving DecidableEq, Repr

/-- Instance2DRaw from src/render/instance.rs: packed 2x2 sprite matrix. -/
structure Instance2DRaw where
  sprite : List ℚ
deriving DecidableEq, Repr

/-- RawInstance from src/render/instance.rs. -/
inductive RawInstance where
  | Model (r : Instance3DRaw)
  | Sprite (r : Instance2DRaw)
deriving DecidableEq, Repr

/-- Buffer a raw record belongs to (write_to_buffer dispatches on the raw
record constructor). -/
def RawInstance.ty : RawInstance → InstanceType
  | RawInstance.Model _ => InstanceType.Model
  | RawInstance.Sprite _ => InstanceType.Sprite

/-- Instance from src/render/instance.rs lines 152-158.  The shared change
queue (QueueBuffer) is the change_buffer list; buffer_id is the GPU slot index. -/
structure Instance where
  instance_type : InstanceType
  change_buffer : List InstanceChange
  position : Vec3
  rotation : Quat
  buffer_id : ℕ
deriving DecidableEq, Repr

/-- Embedding of Instance::to_raw (src/render/instance.rs lines 211-231):
model matrix = from_translation(position) * from(rotation), normal matrix
from the rotation; for sprites the 2x2 matrix with columns (x, y) and (1, 1). -/
def Instance.to_raw (i : Instance) : RawInstance :=
  match i.instance_type with
  | InstanceType.Model =>
      RawInstance.Model
        ⟨mat4Mul (mat4FromTranslation i.position) (mat4FromQuat i.rotation),
         mat3FromQuat i.rotation⟩
  | InstanceType.Sprite =>
      RawInstance.Sprite ⟨[i.position.x, i.position.y, 1, 1]⟩

/-- Application of one InstanceChange, the match in Instance::tick
(src/render/instance.rs lines 168-175): Set replaces, Add accumulates. -/
def applyChange (i : Instance) (c : InstanceChange) : Instance :=
  match c with
  | InstanceChange.PositionSet pos => { i with position := pos }
  | InstanceChange.PositionAdd pos => { i with position := i.position.add pos }
  | InstanceChange.RotationSet rot => { i with rotation := rot }
  | InstanceChange.RotationAdd rot => { i with rotation := i.rotation.add rot }

/-- One issued partial write: the slot index and the packed record written
there; the target buffer is the one matching the record constructor. -/
structure WriteRec where
  slot : ℕ
  raw : RawInstance
deriving DecidableEq, Repr

/-- Embedding of Instance::tick (src/render/instance.rs lines 160-179).
QueueBuffer::get_buffer swaps the queue out for an empty one before the
emptiness check; when changes are pending they are folded in enqueue order
and one partial write at the fixed slot is issued. -/
def Instance.tickPure (i : Instance) : Instance × Option WriteRec :=
  let changes := i.change_buffer
  let i0 := { i with change_buffer := [] }
  if changes.isEmpty then (i0, none)
  else
    let i1 := changes.foldl applyChange i0
    (i1, some ⟨i1.buffer_id, i1.to_raw⟩)

/-- InstanceDesc from src/render/instance.rs lines 259-274, with its Default
(Model type, zero position, identity rotation). -/
structure InstanceDesc where
  instance_type : InstanceType := InstanceType.Model
  position : Vec3 := Vec3.zero
  rotation : Quat := Quat.one
deriving DecidableEq, Repr

/-- The two GPU instance buffers, modelled as slot-indexed record lists. -/
structure GpuBuffers where
  buf3 : List Instance3DRaw
  buf2 : List Instance2DRaw
deriving DecidableEq, Repr

/-- Application of one queued partial write to the buffers: write_to_buffer
targets buffer_id times the record size inside the matching buffer, i.e. the
record slot equal to buffer_id. -/
def GpuBuffers.applyWrite (b : GpuBuffers) (w : WriteRec) : GpuBuffers :=
  match w.raw with
  | RawInstance.Model r3 => { b with buf3 := b.buf3.set w.slot r3 }
  | RawInstance.Sprite r2 => { b with buf2 := b.buf2.set w.slot r2 }

/-- InstanceManager from src/render/instance.rs lines 13-22.  The wgpu
buffers are modelled by their record contents. -/
structure InstanceManager where
  instances : List Instance
  n_3d_buffer : ℕ
  n_2d_buffer : ℕ
  needs_buffer_remake : Bool
  bufs : GpuBuffers
deriving DecidableEq, Repr

/-- InstanceManager::new (src/render/instance.rs lines 24-46): empty
instance list and buffers, needs_buffer_remake starts true. -/
def InstanceManager.init : InstanceManager :=
  { instances := []
    n_3d_buffer := 0
    n_2d_buffer := 0
    needs_buffer_remake := true
    bufs := ⟨[], []⟩ }

/-- Embedding of InstanceManager::register_instance (lines 58-84): the slot
comes from the per-type counter, the queue starts empty, the manager is marked
for a structural rebuild.  The returned number is the index of the new
instance inside the instances vector, standing in for the InstanceRef handle
(which shares the queue and slot cell of exactly that instance). -/
def InstanceManager.register_instance (m : InstanceManager) (d : InstanceDesc) :
    InstanceManager × ℕ :=
  let buf_id : ℕ :=
    match d.instance_type with
    | InstanceType.Model => m.n_3d_buffer
    | InstanceType.Sprite => m.n_2d_buffer
  let n3 :=
    match d.instance_type with
    | InstanceType.Model => m.n_3d_buffer + 1
    | InstanceType.Sprite => m.n_3d_buffer
  let n2 :=
    match d.instance_type with
    | InstanceType.Model => m.n_2d_buffer
    | InstanceType.Sprite => m.n_2d_buffer + 1
  let inst : Instance :=
    { instance_type := d.instance_type
      change_buffer := []
      position := d.position
      rotation := d.rotation
      buffer_id := buf_id }
  ({ m with
      instances := m.instances ++ [inst]
      n_3d_buffer := n3
      n_2d_buffer := n2
      needs_buffer_remake := true },
   m.instances.length)

/-- Embedding of InstanceManager::remake_buffer (lines 111-135): every
packed record is recomputed and both whole buffers are re-uploaded; the
structural flag is cleared. -/
def InstanceManager.remake_buffer (m : InstanceManager) : InstanceManager :=
  let raw3 := m.instances.filterMap (fun i =>
    match i.to_raw with
    | RawInstance.Model r3 => some r3
    | RawInstance.Sprite _ => none)
  let raw2 := m.instances.filterMap (fun i =>
    match i.to_raw with
    | RawInstance.Model _ => none
    | RawInstance.Sprite r2 => some r2)
  { m with bufs := ⟨raw3, raw2⟩, needs_buffer_remake := false }

/-- Report of one engine tick: whether a full rebuild ran, and the partial
writes issued otherwise, in issue order. -/
structure TickReport where
  fullRebuild : Bool
  writes : List WriteRec
deriving DecidableEq, Repr

/-- Incremental arm of InstanceManager::tick: every instance is ticked in
vector order; each dirty instance issues one partial write which lands in
the buffers immediately. -/
def InstanceManager.tickInstances (m : InstanceManager) :
    InstanceManager × List WriteRec :=
  let stepped := m.instances.map Instance.tickPure
  let ws := stepped.filterMap Prod.snd
  ({ m with
      instances := stepped.map Prod.fst
      bufs := ws.foldl GpuBuffers.applyWrite m.bufs },
   ws)

/-- Embedding of InstanceManager::tick (src/render/instance.rs lines 48-56):
full rebuild when the structural flag is set, else the incremental per-instance
pass. -/
def InstanceManager.tick (m : InstanceManager) : InstanceManager × TickReport :=
  if m.needs_buffer_remake then
    (m.remake_buffer, ⟨true, []⟩)
  else
    let (m1, ws) := m.tickInstances
    (m1, ⟨false, ws⟩)

/-- Operations available on the engine between two ticks: registering a new
instance (InstanceManager::register_instance), or pushing one mutation into
an instance queue through a handle (InstanceRef set_pos / add_pos /
set_rot / add_rot, which push onto the shared QueueBuffer). -/
inductive IMOp where
  | register (d : InstanceDesc)
  | push (idx : ℕ) (c : InstanceChange)
deriving DecidableEq, Repr

/-- Predicate selecting the structural operation. -/
def IMOp.isRegister : IMOp → Bool
  | IMOp.register _ => true
  | IMOp.push _ _ => false

/-- In-place update of the element at one index, leaving the rest alone. -/
def listModify {α : Type} (f : α → α) : ℕ → List α → List α
  | _, [] => []
  | 0, a :: l => f a :: l
  | n + 1, a :: l => a :: listModify f n l

/-- Push of one mutation through a handle onto the queue of instance idx
(QueueBufferRef::push onto the shared queue of that instance). -/
def InstanceManager.pushChange (m : InstanceManager) (idx : ℕ) (c : InstanceChange) :
    InstanceManager :=
  { m with
      instances := listModify
        (fun i => { i with change_buffer := i.change_buffer ++ [c] }) idx m.instances }

/-- Application of one inter-tick operation. -/
def InstanceManager.applyOp (m : InstanceManager) : IMOp → InstanceManager
  | IMOp.register d => (m.register_instance d).1
  | IMOp.push idx c => m.pushChange idx c

/-- Application of a batch of inter-tick operations, oldest first. -/
def InstanceManager.applyOps (m : InstanceManager) (ops : List IMOp) : InstanceManager :=
  ops.foldl InstanceManager.applyOp m

/-- Target key of an instance: which buffer it lives in and at which slot. -/
def Instance.key (i : Instance) : InstanceType × ℕ := (i.instance_type, i.buffer_id)

/-- Count of Model instances. -/
def InstanceManager.modelCount (m : InstanceManager) : ℕ :=
  m.instances.countP (fun i => i.instance_type = InstanceType.Model)

/-- Count of Sprite instances. -/
def InstanceManager.spriteCount (m : InstanceManager) : ℕ :=
  m.instances.countP (fun i => i.instance_type = InstanceType.Sprite)

/-- Well-formedness of a manager state, maintained by the engine: no two
instances share a buffer slot of the same type, every slot is below the
per-type counter, the counters equal the per-type instance counts, and
whenever the structural flag is clear the uploaded buffers hold one record
per instance of the type. -/
def InstanceManager.WF (m : InstanceManager) : Prop :=
  (m.instances.map Instance.key).Nodup ∧
  (∀ i ∈ m.instances,
    i.buffer_id <
      (match i.instance_type with
       | InstanceType.Model => m.n_3d_buffer
       | InstanceType.Sprite => m.n_2d_buffer)) ∧
  m.n_3d_buffer = m.modelCount ∧
  m.n_2d_buffer = m.spriteCount ∧
  (m.needs_buffer_remake = false →
    m.bufs.buf3.length = m.modelCount ∧ m.bufs.buf2.length = m.spriteCount)

instance (m : InstanceManager) : Decidable m.WF := by
  unfold InstanceManager.WF
  infer_instance

/-- Record currently held at a given slot of a given buffer. -/
def GpuBuffers.slotVal (b : GpuBuffers) (ty : InstanceType) (s : ℕ) :
    Option RawInstance :=
  match ty with
  | InstanceType.Model => (b.buf3.get? s).map RawInstance.Model
  | InstanceType.Sprite => (b.buf2.get? s).map RawInstance.Sprite

/-- Record currently uploaded at a given slot of a given buffer of the
manager. -/
def InstanceManager.slotValue (m : InstanceManager) (ty : InstanceType) (s : ℕ) :
    Option RawInstance :=
  m.bufs.slotVal ty s

/-- Per-type buffer length. -/
def GpuBuffers.tyLength (b : GpuBuffers) (ty : InstanceType) : ℕ :=
  match ty with
  | InstanceType.Model => b.buf3.length
  | InstanceType.Sprite => b.buf2.length

/-! ## Deferred event bus (src/event.rs) -/

/-- Log lines the dispatcher can print while draining (src/event.rs lines
126 and 133): an unregistered destination name, or a subscriber id missing
from the identity registry. -/
inductive EvLog where
  | destNotFound (destination : String)
  | idNotFound (id : ℕ)
deriving DecidableEq, Repr

/-- EventDispatcher state from src/event.rs lines 88-93, polymorphic in the
event payload.  destinations maps a name to its subscriber id list; the
identity registry is abstracted to the list of ids it can resolve, which is
all the dispatcher observes of it. -/
structure EventDispatcher (ε : Type) where
  event_queue : List (String × ε)
  destinations : List (String × List ℕ)
  known_ids : List ℕ

/-- Embedding of EventDispatcher::register_destination (lines 105-112):
append to the existing subscriber list, or insert a fresh singleton list. -/
def EventDispatcher.register_destination {ε : Type} (d : EventDispatcher ε)
    (destination : String) (id : ℕ) : EventDispatcher ε :=
  match d.destinations.lookup destination with
  | some v => { d with destinations := (destination, v ++ [id]) :: d.destinations }
  | none => { d with destinations := (destination, [id]) :: d.destinations }

/-- Embedding of EventDispatcher::send_event (lines 114-117). -/
def EventDispatcher.send_event {ε : Type} (d : EventDispatcher ε)
    (destination : String) (event : ε) : EventDispatcher ε :=
  { d with event_queue := d.event_queue ++ [(destination, event)] }

/-- Result of draining the queue: the (name, event) pairs in the order they
were handled, the input calls made (subscriber id, event) in call order, and
the log lines printed. -/
structure DrainResult (ε : Type) where
  handled : List (String × ε)
  delivered : List (ℕ × ε)
  logs : List EvLog

/-- Deliveries one queue item causes (the body of the while loop in
process_events, src/event.rs lines 123-135): nothing for an unknown name;
otherwise one input call per resolvable subscriber id, in list order. -/
def dispatchDeliveries {ε : Type} (dests : List (String × List ℕ)) (known : List ℕ)
    (item : String × ε) : List (ℕ × ε) :=
  match dests.lookup item.1 with
  | none => []
  | some ids => ids.filterMap (fun i => if i ∈ known then some (i, item.2) else none)

/-- Log lines one queue item causes: one destination-not-found notice for an
unknown name, else one id-not-found line per unresolvable subscriber id. -/
def dispatchLogs {ε : Type} (dests : List (String × List ℕ)) (known : List ℕ)
    (item : String × ε) : List EvLog :=
  match dests.lookup item.1 with
  | none => [EvLog.destNotFound item.1]
  | some ids => ids.filterMap (fun i => if i ∈ known then none else some (EvLog.idNotFound i))

/-- Drain of a list of queue items, head first. -/
def drainList {ε : Type} (dests : List (String × List ℕ)) (known : List ℕ) :
    List (String × ε) → DrainResult ε
  | [] => ⟨[], [], []⟩
  | item :: rest =>
    let r := drainList dests known rest
    ⟨item :: r.handled,
     dispatchDeliveries dests known item ++ r.delivered,
     dispatchLogs dests known item ++ r.logs⟩

/-- Embedding of EventDispatcher::process_events (src/event.rs lines
119-137).  The Rust loop repeatedly pops the LAST pending item (Vec::pop),
so the batch is handled in reverse of enqueue order; popping until empty is
modelled as draining the reversed queue, and the queue ends empty. -/
def EventDispatcher.process_events {ε : Type} (d : EventDispatcher ε) :
    EventDispatcher ε × DrainResult ε :=
  ({ d with event_queue := [] },
   drainList d.destinations d.known_ids d.event_queue.reverse)

/-! ## Space subsystem (src/space.rs) -/

/-- Error log a space component can print: a transform vector of the wrong
arity for the given method (the [ERR] println branches in src/space.rs). -/
inductive SpaceErr where
  | wrongSize (method : String) (got : ℕ) (expected : ℕ)
deriving DecidableEq, Repr

/-- RenderComponent delegate slot of an entity: the no-op placeholder, or a
single-instance 3D render component bound to a model name and an instance
handle (Single3DInstance, created by GameSpaceMaster::init_child_entity). -/
inductive RenderComp where
  | noRender
  | single3DInstance (model : String) (inst : ℕ)
deriving DecidableEq, Repr

/-- SpaceComponent delegate slot of an entity, the closed implementation set
of src/space.rs: the root sentinel, the no-op placeholder, the 3D space
master with its shared displacement, and the 3D space component bound (by
index) to an instance of the Instance Engine. -/
inductive SpaceComp where
  | noSpaceMaster
  | noSpaceComponent
  | gameSpaceMaster (totalDisplacement : Vec3)
  | gameSpaceComponent (totalDisplacement : Vec3) (inst : ℕ)
deriving DecidableEq, Repr

/-- Embedding of translate (src/space.rs lines 154-165 for
GameSpaceComponent, no-op bodies for the other variants): a 3-vector is
pushed as a PositionAdd onto the bound instance queue, anything else is a
logged no-op. -/
def SpaceComp.translate (c : SpaceComp) (v : List ℚ) (m : InstanceManager) :
    InstanceManager × List SpaceErr :=
  match c with
  | SpaceComp.gameSpaceComponent _ inst =>
    match v with
    | [a, b, d] => (m.pushChange inst (InstanceChange.PositionAdd ⟨a, b, d⟩), [])
    | _ => (m, [SpaceErr.wrongSize "translate" v.length 3])
  | _ => (m, [])

/-- Embedding of rotate (src/space.rs lines 167-178): a 4-vector is pushed
as a RotationAdd, anything else is a logged no-op. -/
def SpaceComp.rotate (c : SpaceComp) (v : List ℚ) (m : InstanceManager) :
    InstanceManager × List SpaceErr :=
  match c with
  | SpaceComp.gameSpaceComponent _ inst =>
    match v with
    | [a, b, d, e] => (m.pushChange inst (InstanceChange.RotationAdd ⟨a, b, d, e⟩), [])
    | _ => (m, [SpaceErr.wrongSize "rotate" v.length 4])
  | _ => (m, [])

/-- Embedding of set_pos (src/space.rs lines 180-191). -/
def SpaceComp.set_pos (c : SpaceComp) (v : List ℚ) (m : InstanceManager) :
    InstanceManager × List SpaceErr :=
  match c with
  | SpaceComp.gameSpaceComponent _ inst =>
    match v with
    | [a, b, d] => (m.pushChange inst (InstanceChange.PositionSet ⟨a, b, d⟩), [])
    | _ => (m, [SpaceErr.wrongSize "set_pos" v.length 3])
  | _ => (m, [])

/-- Embedding of set_rot (src/space.rs lines 193-204). -/
def SpaceComp.set_rot (c : SpaceComp) (v : List ℚ) (m : InstanceManager) :
    InstanceManager × List SpaceErr :=
  match c with
  | SpaceComp.gameSpaceComponent _ inst =>
    match v with
    | [a, b, d, e] => (m.pushChange inst (InstanceChange.RotationSet ⟨a, b, d, e⟩), [])
    | _ => (m, [SpaceErr.wrongSize "set_rot" v.length 4])
  | _ => (m, [])

/-- Embedding of the SpaceComponent::transform default method (src/space.rs
lines 26-29): translate with the vector, then rotate with the same vector;
no implementor overrides it. -/
def SpaceComp.transform (c : SpaceComp) (v : List ℚ) (m : InstanceManager) :
    InstanceManager × List SpaceErr :=
  let (m1, l1) := c.translate v m
  let (m2, l2) := c.rotate v m1
  (m2, l1 ++ l2)

/-! ## Identity registry id allocation (src/util.rs lines 187-192)

IdManager::next_id keeps a std DefaultHasher, which is SipHash-1-3 with both
keys zero; each call returns the current finished value and then hashes that
value back into the hasher (8 bytes, machine byte order, taken little-endian
here as on the common targets).  The hasher state after a run of next_id
calls is the SipHash compression state over all words written so far, plus
the byte count; both are modelled exactly. -/

/-- Wrap to 64 bits. -/
def wrap64 (x : ℕ) : ℕ := x % (2 ^ 64)

/-- Addition modulo 2 to the 64. -/
def add64 (a b : ℕ) : ℕ := wrap64 (a + b)

/-- Left rotation of a 64-bit value. -/
def rotl64 (x : ℕ) (r : ℕ) : ℕ := wrap64 ((x <<< r) ||| (x >>> (64 - r)))

/-- One SipHash round on the four state words. -/
def sipRound : ℕ × ℕ × ℕ × ℕ → ℕ × ℕ × ℕ × ℕ
  | (a0, a1, a2, a3) =>
    let v0 := add64 a0 a1
    let v1 := rotl64 a1 13
    let v1 := v1 ^^^ v0
    let v0 := rotl64 v0 32
    let v2 := add64 a2 a3
    let v3 := rotl64 a3 16
    let v3 := v3 ^^^ v2
    let v0b := add64 v0 v3
    let v3b := rotl64 v3 21
    let v3b := v3b ^^^ v0b
    let v2b := add64 v2 v1
    let v1b := rotl64 v1 17
    let v1b := v1b ^^^ v2b
    let v2b := rotl64 v2b 32
    (v0b, v1b, v2b, v3b)

/-- Incremental hasher state: the four SipHash words after compressing every
word written so far, and the number of bytes written. -/
structure SipState where
  v0 : ℕ
  v1 : ℕ
  v2 : ℕ
  v3 : ℕ
  len : ℕ
deriving DecidableEq, Repr

/-- DefaultHasher::new(): SipHasher13::new_with_keys(0, 0), so the state
words are the SipHash initialisation constants. -/
def SipState.init : SipState :=
  ⟨0x736f6d6570736575, 0x646f72616e646f6d, 0x6c7967656e657261, 0x7465646279746573, 0⟩

/-- Compression of one 8-byte message word (SipHash-1-3: one round). -/
def sipCompress (st : SipState) (m : ℕ) : SipState :=
  let (v0, v1, v2, v3) := sipRound (st.v0, st.v1, st.v2, st.v3 ^^^ m)
  ⟨v0 ^^^ m, v1, v2, v3, st.len + 8⟩

/-- Hasher::finish on the current state: length block (all writes here are
whole words, so the tail is empty), one compression round, the 0xff
finalisation, three final rounds, xor of the words.  finish borrows the
hasher immutably and leaves the state unchanged. -/
def sipFinish (st : SipState) : ℕ :=
  let b := (st.len % 256) <<< 56
  let (v0, v1, v2, v3) := sipRound (st.v0, st.v1, st.v2, st.v3 ^^^ b)
  let (w0, w1, w2, w3) := sipRound (v0 ^^^ b, v1, v2 ^^^ 0xff, v3)
  let (u0, u1, u2, u3) := sipRound (w0, w1, w2, w3)
  let (t0, t1, t2, t3) := sipRound (u0, u1, u2, u3)
  ((t0 ^^^ t1) ^^^ t2) ^^^ t3

/-- Embedding of IdManager::next_id (src/util.rs lines 187-192): return the
finished value of the accumulator and fold that value back into it. -/
def nextId (st : SipState) : ℕ × SipState :=
  let hash := sipFinish st
  (hash, sipCompress st hash)

/-- Hasher state after n next_id calls on a fresh IdManager. -/
def sipStateAfter : ℕ → SipState
  | 0 => SipState.init
  | n + 1 => (nextId (sipStateAfter n)).2

/-- The n-th id issued by successive next_id calls on a fresh IdManager. -/
def idChain (n : ℕ) : ℕ := (nextId (sipStateAfter n)).1

/-! ## Entity graph (src/entity.rs)

SharedCell references to entities are modelled as indices into the manager
vector (entities are only ever appended, so indices are stable); the
identity-registry map sends an id to such an index.  The repository declares
the ComponentObject trait but implements it nowhere (the file is marked
"todo implement some of these"), so an ordinary component is modelled as its
id plus the Response its behavior object would return to input; its init,
init_child_entity and tick bodies have no observable effect, and likewise
the render delegate init bodies in the repository are empty. -/

/-- Component from src/entity.rs lines 322-352. -/
structure Component where
  id : ℕ
  resp : Response
deriving DecidableEq, Repr

/-- Entity from src/entity.rs lines 164-173. -/
structure Entity where
  id : ℕ
  parent_id : ℕ
  children : List ℕ
  render_component : RenderComp
  space_component : SpaceComp
  components : List Component
deriving DecidableEq, Repr

/-- EntityDesc from src/entity.rs lines 266-282, with its Default
(zero position, no components). -/
structure EntityDesc where
  position : Vec3 := Vec3.zero
  components : List Component := []
deriving DecidableEq, Repr

/-- Combined mutable state the entity flows touch: the id-manager hasher,
the identity-registry map (id to entity index; only entities are ever
registered in these flows), the manager entity vector, and the instance
engine. -/
structure World where
  idState : SipState
  idMap : List (ℕ × ℕ)
  entities : List Entity
  im : InstanceManager
deriving DecidableEq, Repr

/-- IdManager::get restricted to entities: first matching map entry. -/
def World.lookupEnt (w : World) (id : ℕ) : Option ℕ := w.idMap.lookup id

/-- Entity behind a manager-vector index. -/
def World.getEnt (w : World) (j : ℕ) : Option Entity := w.entities.get? j

/-- Replacement of the entity at one index (a borrow_mut write). -/
def World.setEnt (w : World) (j : ℕ) (e : Entity) : World :=
  { w with entities := w.entities.set j e }

/-- EntityManager::new (src/entity.rs lines 17-27): make_root builds the
id-0, parent-0 root with the NoSpaceMaster sentinel and registers it;
make_space_master allocates the next id for a GameSpaceMaster entity,
registers it, and the root adopts it as first child. -/
def World.initial : World :=
  let root : Entity :=
    ⟨0, 0, [], RenderComp.noRender, SpaceComp.noSpaceMaster, []⟩
  let (mid, st1) := nextId SipState.init
  let master : Entity :=
    ⟨mid, 0, [], RenderComp.noRender, SpaceComp.gameSpaceMaster Vec3.zero, []⟩
  { idState := st1
    idMap := (mid, 1) :: (0, 0) :: []
    entities := [{ root with children := [1] }, master]
    im := InstanceManager.init }

/-- Entity::init_child for one ancestor (src/entity.rs lines 182-190): the
ancestor space delegate gets to initialise the child, then its ordinary
components (which have no init_child_entity bodies in the repository).  Only
GameSpaceMaster acts (src/space.rs lines 94-117): it registers a defaulted
Model instance and replaces the child space delegate with a
GameSpaceComponent bound to that instance, and the render delegate with a
single-instance 3D component for the cube model. -/
def initChildStep (w : World) (pEnt : Entity) (cIdx : ℕ) : World :=
  match pEnt.space_component with
  | SpaceComp.gameSpaceMaster disp =>
    let (im1, instIdx) := w.im.register_instance {}
    let w1 := { w with im := im1 }
    match w1.getEnt cIdx with
    | none => w1
    | some c =>
      w1.setEnt cIdx
        { c with
            space_component := SpaceComp.gameSpaceComponent disp instIdx
            render_component := RenderComp.single3DInstance "cube" instIdx }
  | _ => w

/-- The ancestor initialisation cascade of EntityManager::new_entity
(src/entity.rs lines 99-107): walk from the immediate parent upwards while
the current id is non-zero, letting each ancestor init the child; in the
source the loop has no bound, so the embedding carries fuel and returns
none where the source would not terminate or an unwrap would panic. -/
def initWalk (fuel : ℕ) (w : World) (cIdx pid : ℕ) (depth : ℤ) : Option World :=
  if pid = 0 then some w
  else
    match fuel with
    | 0 => none
    | f + 1 =>
      match w.lookupEnt pid with
      | none => none
      | some pIdx =>
        match w.getEnt pIdx with
        | none => none
        | some pEnt =>
          initWalk f (initChildStep w pEnt cIdx) cIdx pEnt.parent_id (depth + 1)

/-- First phase of new_entity: allocate the id from the hasher, build the
child with the placeholder delegates and the descriptor components, register
it in the identity map and append it to the manager vector (src/entity.rs
lines 81-96). -/
def World.withNewChild (w : World) (desc : EntityDesc) (parentId : ℕ) : World :=
  { w with
      idState := (nextId w.idState).2
      idMap := ((nextId w.idState).1, w.entities.length) :: w.idMap
      entities := w.entities ++
        [⟨(nextId w.idState).1, parentId, [], RenderComp.noRender,
          SpaceComp.noSpaceComponent, desc.components⟩] }

/-- Embedding of EntityManager::new_entity (src/entity.rs lines 72-118):
allocate the id; build the child with the placeholder delegates and the
descriptor components; register it and append it to the manager vector;
resolve the parent (after registration, as in the source) and append the
child to its children; run the ancestor cascade; run the child init (no
observable effect in the repository); finally push the descriptor position
through the now-resolved space delegate as a translate of the 3-element
array.  The walk fuel is the entity count, which bounds every cycle-free
ancestor chain. -/
def World.newEntity (w : World) (desc : EntityDesc) (parentId : ℕ) :
    Option (World × ℕ) :=
  let w1 := w.withNewChild desc parentId
  match w1.lookupEnt parentId with
  | none => none
  | some pIdx =>
    match w1.getEnt pIdx with
    | none => none
    | some pEnt =>
      let w2 :=
        w1.setEnt pIdx { pEnt with children := pEnt.children ++ [w.entities.length] }
      match initWalk w2.entities.length w2 w.entities.length parentId 0 with
      | none => none
      | some w3 =>
        match w3.getEnt w.entities.length with
        | none => none
        | some c =>
          some ({ w3 with
              im := (c.space_component.translate
                [desc.position.x, desc.position.y, desc.position.z] w3.im).1 },
            w.entities.length)

/-- EntityManager::get_root (src/entity.rs lines 141-146): the entity at
index 0 of the manager vector; the source expects it to exist. -/
def World.getRoot (w : World) : Option Entity := w.entities.get? 0

/-- EntityManager::tick (src/entity.rs lines 120-124): pre-order traversal
ticking every component; since the repository implements no ComponentObject,
no component tick has an observable effect and the traversal leaves the
state unchanged. -/
def World.tick (w : World) : World := w

/-- Entity::input (src/entity.rs lines 225-231): fold the component
responses with Response::with, starting from No. -/
def Entity.input (e : Entity) : Response :=
  e.components.foldl (fun r c => r.with c.resp) Response.No

/-- EntityManager::input_root (src/entity.rs lines 136-138): deliver an
input to the root and return its folded response; reads only. -/
def World.input_root (w : World) : Option Response :=
  (w.getRoot).map Entity.input

/-- Render traversal entry (src/entity.rs lines 126-132): collect commands
by reading the graph; the model emits one command per single-instance render
delegate of the visited entity, and mutates nothing. -/
def Entity.renderCommands (e : Entity) : List (String × ℕ) :=
  match e.render_component with
  | RenderComp.noRender => []
  | RenderComp.single3DInstance model inst => [(model, inst)]

/-- Chain of ancestor indices from a given id down to the root sentinel:
chainFromB w pid js holds when js lists, in walk order, the registry
entities the cascade will visit starting at parent id pid until the id
reaches 0. -/
def chainFromB (w : World) : ℕ → List ℕ → Bool
  | pid, [] => pid = 0
  | pid, j :: js =>
    pid ≠ 0 &&
    w.lookupEnt pid = some j &&
    match w.getEnt j with
    | none => false
    | some e => chainFromB w e.parent_id js

/-- Test for a space-master entity at a manager index. -/
def isMasterAt (w : World) (j : ℕ) : Bool :=
  match w.getEnt j with
  | some e =>
    match e.space_component with
    | SpaceComp.gameSpaceMaster _ => true
    | _ => false
  | none => false

/-- Root invariant: the entity at index 0 exists, has id 0 and is its own
parent (parent id 0, the root sentinel). -/
def RootInv (w : World) : Prop :=
  ∃ e, w.getRoot = some e ∧ e.id = 0 ∧ e.parent_id = 0

/-- Identity-preserving simulation between worlds: the registry map is
unchanged, the entity vector keeps its length and every entity keeps its id
and parent id (other fields may differ). -/
def worldSim (w w2 : World) : Prop :=
  w2.idMap = w.idMap ∧
  w2.entities.length = w.entities.length ∧
  ∀ j e, w.getEnt j = some e →
    ∃ e2, w2.getEnt j = some e2 ∧ e2.id = e.id ∧ e2.parent_id = e.parent_id

/-! ## Helper lemmas -/

theorem drainList_handled_eq {ε : Type} (dests : List (String × List ℕ))
    (known : List ℕ) (l : List (String × ε)) :
    (drainList dests known l).handled = l := by
  induction l with
  | nil => rfl
  | cons x l ih => simp [drainList, ih]

theorem drainList_delivered_append {ε : Type} (dests : List (String × List ℕ))
    (known : List ℕ) (l₁ l₂ : List (String × ε)) :
    (drainList dests known (l₁ ++ l₂)).delivered =
      (drainList dests known l₁).delivered ++ (drainList dests known l₂).delivered := by
  induction l₁ with
  | nil => simp [drainList]
  | cons x l ih => simp [drainList, ih]

theorem drainList_logs_append {ε : Type} (dests : List (String × List ℕ))
    (known : List ℕ) (l₁ l₂ : List (String × ε)) :
    (drainList dests known (l₁ ++ l₂)).logs =
      (drainList dests known l₁).logs ++ (drainList dests known l₂).logs := by
  induction l₁ with
  | nil => simp [drainList]
  | cons x l ih => simp [drainList, ih]

theorem listModify_length {α : Type} (f : α → α) (n : ℕ) (l : List α) :
    (listModify f n l).length = l.length := by
  induction l generalizing n with
  | nil => cases n <;> rfl
  | cons a l ih =>
    cases n with
    | zero => rfl
    | succ n => simp [listModify, ih]

theorem listModify_map {α β : Type} (f : α → α) (g : α → β)
    (hg : ∀ a, g (f a) = g a) (n : ℕ) (l : List α) :
    (listModify f n l).map g = l.map g := by
  induction l generalizing n with
  | nil => cases n <;> rfl
  | cons a l ih =>
    cases n with
    | zero => simp [listModify, hg]
    | succ n => simp [listModify, ih]

theorem listModify_countP {α : Type} (f : α → α) (p : α → Bool)
    (hp : ∀ a, p (f a) = p a) (n : ℕ) (l : List α) :
    (listModify f n l).countP p = l.countP p := by
  induction l generalizing n with
  | nil => cases n <;> rfl
  | cons a l ih =>
    cases n with
    | zero => simp [listModify, List.countP_cons, hp]
    | succ n => simp [listModify, List.countP_cons, ih]

theorem mem_listModify {α : Type} (f : α → α) (n : ℕ) (l : List α) :
    ∀ b ∈ listModify f n l, ∃ a ∈ l, b = a ∨ b = f a := by
  induction l generalizing n with
  | nil => intro b hb; cases n <;> cases hb
  | cons a l ih =>
    cases n with
    | zero =>
      intro b hb
      rcases List.mem_cons.mp hb with h | h
      · exact ⟨a, List.mem_cons_self a l, Or.inr h⟩
      · exact ⟨b, List.mem_cons_of_mem a h, Or.inl rfl⟩
    | succ n =>
      intro b hb
      rcases List.mem_cons.mp hb with h | h
      · exact ⟨a, List.mem_cons_self a l, Or.inl h⟩
      · obtain ⟨a2, ha2, hor⟩ := ih n b h
        exact ⟨a2, List.mem_cons_of_mem a ha2, hor⟩

theorem listModify_concat {α : Type} (f : α → α) (l : List α) (a : α) :
    listModify f l.length (l ++ [a]) = l ++ [f a] := by
  induction l with
  | nil => rfl
  | cons x l ih => simp [listModify, ih]

theorem applyChange_type (i : Instance) (c : InstanceChange) :
    (applyChange i c).instance_type = i.instance_type := by
  cases c <;> rfl

theorem applyChange_bid (i : Instance) (c : InstanceChange) :
    (applyChange i c).buffer_id = i.buffer_id := by
  cases c <;> rfl

theorem foldl_applyChange_type (cs : List InstanceChange) (i0 : Instance) :
    (cs.foldl applyChange i0).instance_type = i0.instance_type := by
  induction cs generalizing i0 with
  | nil => rfl
  | cons c cs ih => rw [List.foldl_cons, ih, applyChange_type]

theorem foldl_applyChange_bid (cs : List InstanceChange) (i0 : Instance) :
    (cs.foldl applyChange i0).buffer_id = i0.buffer_id := by
  induction cs generalizing i0 with
  | nil => rfl
  | cons c cs ih => rw [List.foldl_cons, ih, applyChange_bid]

theorem tickPure_fst_type (i : Instance) :
    ((i.tickPure).1).instance_type = i.instance_type := by
  simp only [Instance.tickPure]
  split
  · rfl
  · exact foldl_applyChange_type _ _

theorem tickPure_fst_bid (i : Instance) :
    ((i.tickPure).1).buffer_id = i.buffer_id := by
  simp only [Instance.tickPure]
  split
  · rfl
  · exact foldl_applyChange_bid _ _

theorem tickPure_eq_of_nil (i : Instance) (h : i.change_buffer = []) :
    i.tickPure = ({ i with change_buffer := [] }, none) := by
  simp [Instance.tickPure, h]

theorem tickPure_eq_of_ne_nil (i : Instance) (h : i.change_buffer ≠ []) :
    i.tickPure =
      (i.change_buffer.foldl applyChange { i with change_buffer := [] },
       some ⟨i.buffer_id,
             (i.change_buffer.foldl applyChange { i with change_buffer := [] }).to_raw⟩) := by
  have hne : i.change_buffer.isEmpty = false := by
    cases hcb : i.change_buffer with
    | nil => exact absurd hcb h
    | cons c cs => rfl
  simp only [Instance.tickPure, hne, Bool.false_eq_true, if_false]
  rw [foldl_applyChange_bid]

theorem to_raw_ty (i : Instance) : (i.to_raw).ty = i.instance_type := by
  cases hty : i.instance_type <;> simp [Instance.to_raw, hty, RawInstance.ty]

theorem applyWrite_tyLength (b : GpuBuffers) (w : WriteRec) (ty : InstanceType) :
    (b.applyWrite w).tyLength ty = b.tyLength ty := by
  obtain ⟨s, r⟩ := w
  cases r <;> cases ty <;>
    simp [GpuBuffers.applyWrite, GpuBuffers.tyLength]

theorem foldl_applyWrite_tyLength (ws : List WriteRec) (b : GpuBuffers)
    (ty : InstanceType) :
    (ws.foldl GpuBuffers.applyWrite b).tyLength ty = b.tyLength ty := by
  induction ws generalizing b with
  | nil => rfl
  | cons w ws ih => rw [List.foldl_cons, ih, applyWrite_tyLength]

theorem applyWrite_slotVal_ne (b : GpuBuffers) (w : WriteRec) (ty : InstanceType)
    (s : ℕ) (h : ¬(w.raw.ty = ty ∧ w.slot = s)) :
    (b.applyWrite w).slotVal ty s = b.slotVal ty s := by
  obtain ⟨ws, wr⟩ := w
  cases wr with
  | Model r3 =>
    cases ty with
    | Model =>
      have hne : ws ≠ s := fun he => h ⟨rfl, he⟩
      simp [GpuBuffers.applyWrite, GpuBuffers.slotVal, List.getElem?_set_ne hne]
    | Sprite => simp [GpuBuffers.applyWrite, GpuBuffers.slotVal]
  | Sprite r2 =>
    cases ty with
    | Model => simp [GpuBuffers.applyWrite, GpuBuffers.slotVal]
    | Sprite =>
      have hne : ws ≠ s := fun he => h ⟨rfl, he⟩
      simp [GpuBuffers.applyWrite, GpuBuffers.slotVal, List.getElem?_set_ne hne]

theorem foldl_applyWrite_slotVal_none (ws : List WriteRec) (b : GpuBuffers)
    (ty : InstanceType) (s : ℕ)
    (h : ∀ w ∈ ws, ¬(w.raw.ty = ty ∧ w.slot = s)) :
    (ws.foldl GpuBuffers.applyWrite b).slotVal ty s = b.slotVal ty s := by
  induction ws generalizing b with
  | nil => rfl
  | cons w ws ih =>
    rw [List.foldl_cons, ih _ (fun w2 hw2 => h w2 (List.mem_cons_of_mem w hw2)),
      applyWrite_slotVal_ne _ _ _ _ (h w (List.mem_cons_self w ws))]

theorem applyWrite_slotVal_eq (b : GpuBuffers) (w : WriteRec)
    (hlen : w.slot < b.tyLength w.raw.ty) :
    (b.applyWrite w).slotVal w.raw.ty w.slot = some w.raw := by
  obtain ⟨ws, wr⟩ := w
  cases wr <;>
    simp only [GpuBuffers.applyWrite, GpuBuffers.slotVal, GpuBuffers.tyLength,
      RawInstance.ty] at hlen ⊢ <;>
    rw [List.get?_set_eq_of_lt _ hlen] <;> rfl

theorem applyWrites_middle (A C : List WriteRec) (w : WriteRec) (b : GpuBuffers)
    (hC : ∀ w2 ∈ C, ¬(w2.raw.ty = w.raw.ty ∧ w2.slot = w.slot))
    (hlen : w.slot < b.tyLength w.raw.ty) :
    (((A ++ w :: C).foldl GpuBuffers.applyWrite b)).slotVal w.raw.ty w.slot =
      some w.raw := by
  rw [List.foldl_append, List.foldl_cons,
    foldl_applyWrite_slotVal_none C _ _ _ hC, applyWrite_slotVal_eq]
  rw [foldl_applyWrite_tyLength]
  exact hlen

theorem applyOp_flag (m : InstanceManager) (op : IMOp) :
    (m.applyOp op).needs_buffer_remake = (m.needs_buffer_remake || op.isRegister) := by
  cases op with
  | register d =>
    simp [InstanceManager.applyOp, InstanceManager.register_instance, IMOp.isRegister]
  | push idx c =>
    simp [InstanceManager.applyOp, InstanceManager.pushChange, IMOp.isRegister]

theorem applyOps_flag (ops : List IMOp) (m : InstanceManager) :
    (m.applyOps ops).needs_buffer_remake =
      (m.needs_buffer_remake || ops.any IMOp.isRegister) := by
  induction ops generalizing m with
  | nil => simp [InstanceManager.applyOps]
  | cons op ops ih =>
    show ((m.applyOp op).applyOps ops).needs_buffer_remake = _
    rw [ih, applyOp_flag]
    simp [Bool.or_assoc]

theorem mem_tickWrites (l : List Instance) (wr : WriteRec) :
    wr ∈ (l.map Instance.tickPure).filterMap Prod.snd ↔
      ∃ a ∈ l, (a.tickPure).2 = some wr := by
  simp only [List.mem_filterMap, List.mem_map]
  constructor
  · rintro ⟨x, ⟨a, ha, rfl⟩, hx⟩
    exact ⟨a, ha, hx⟩
  · rintro ⟨a, ha, h⟩
    exact ⟨a.tickPure, ⟨a, ha, rfl⟩, h⟩

theorem list_split_get? {α : Type} (l : List α) (j : ℕ) (a : α)
    (h : l.get? j = some a) :
    l = l.take j ++ a :: l.drop (j + 1) := by
  obtain ⟨hj, hget⟩ := List.get?_eq_some.mp h
  conv_lhs => rw [← List.take_append_drop j l]
  rw [List.drop_eq_get_cons hj, hget]

theorem applyChange_cb (i : Instance) (c : InstanceChange) :
    (applyChange i c).change_buffer = i.change_buffer := by
  cases c <;> rfl

theorem foldl_applyChange_cb (cs : List InstanceChange) (i0 : Instance) :
    (cs.foldl applyChange i0).change_buffer = i0.change_buffer := by
  induction cs generalizing i0 with
  | nil => rfl
  | cons c cs ih => rw [List.foldl_cons, ih, applyChange_cb]

theorem tickPure_fst_cb (i : Instance) : ((i.tickPure).1).change_buffer = [] := by
  simp only [Instance.tickPure]
  split
  · rfl
  · exact foldl_applyChange_cb _ _

theorem tick_fullRebuild (m : InstanceManager) :
    ((m.tick).2).fullRebuild = m.needs_buffer_remake := by
  by_cases h : m.needs_buffer_remake <;> simp [InstanceManager.tick, h]

theorem WF_pushChange (m : InstanceManager) (idx : ℕ) (c : InstanceChange)
    (h : m.WF) : (m.pushChange idx c).WF := by
  obtain ⟨h1, h2, h3, h4, h5⟩ := h
  have hinst : (m.pushChange idx c).instances =
      listModify (fun i : Instance => { i with change_buffer := i.change_buffer ++ [c] })
        idx m.instances := rfl
  have hcountM : (m.pushChange idx c).modelCount = m.modelCount := by
    rw [InstanceManager.modelCount, hinst]
    exact listModify_countP
      (fun i : Instance => { i with change_buffer := i.change_buffer ++ [c] })
      (fun i : Instance => decide (i.instance_type = InstanceType.Model))
      (fun _ => rfl) idx m.instances
  have hcountS : (m.pushChange idx c).spriteCount = m.spriteCount := by
    rw [InstanceManager.spriteCount, hinst]
    exact listModify_countP
      (fun i : Instance => { i with change_buffer := i.change_buffer ++ [c] })
      (fun i : Instance => decide (i.instance_type = InstanceType.Sprite))
      (fun _ => rfl) idx m.instances
  refine ⟨?_, ?_, ?_, ?_, ?_⟩
  · show ((m.pushChange idx c).instances.map Instance.key).Nodup
    rw [hinst,
      listModify_map (fun i : Instance => { i with change_buffer := i.change_buffer ++ [c] })
        Instance.key (fun _ => rfl)]
    exact h1
  · intro i hi
    rw [hinst] at hi
    obtain ⟨a, ha, hor⟩ :=
      mem_listModify (fun i : Instance => { i with change_buffer := i.change_buffer ++ [c] })
        idx m.instances i hi
    rcases hor with h7 | h7
    · subst h7
      exact h2 i ha
    · subst h7
      exact h2 a ha
  · show m.n_3d_buffer = (m.pushChange idx c).modelCount
    rw [hcountM]
    exact h3
  · show m.n_2d_buffer = (m.pushChange idx c).spriteCount
    rw [hcountS]
    exact h4
  · intro hf
    have h5f := h5 hf
    refine ⟨?_, ?_⟩
    · show m.bufs.buf3.length = (m.pushChange idx c).modelCount
      rw [hcountM]
      exact h5f.1
    · show m.bufs.buf2.length = (m.pushChange idx c).spriteCount
      rw [hcountS]
      exact h5f.2

theorem WF_register (m : InstanceManager) (d : InstanceDesc) (h : m.WF) :
    ((m.register_instance d).1).WF := by
  obtain ⟨h1, h2, h3, h4, _⟩ := h
  cases hty : d.instance_type with
  | Model =>
    refine ⟨?_, ?_, ?_, ?_, ?_⟩ <;>
      simp only [InstanceManager.register_instance, hty]
    · rw [List.map_append]
      rw [List.nodup_append]
      refine ⟨h1, List.nodup_singleton _, ?_⟩
      intro k hk1 hk2
      simp only [List.map_cons, List.map_nil, List.mem_singleton] at hk2
      obtain ⟨a, ha, hkey⟩ := List.mem_map.mp hk1
      subst hk2
      have hbound := h2 a ha
      have hat : a.instance_type = InstanceType.Model := by
        have := congrArg Prod.fst hkey
        simpa [Instance.key] using this
      have hab : a.buffer_id = m.n_3d_buffer := by
        have := congrArg Prod.snd hkey
        simpa [Instance.key] using this
      rw [hat, hab] at hbound
      exact absurd hbound (lt_irrefl _)
    · intro i hi
      rcases List.mem_append.mp hi with hold | hnew
      · have hbound := h2 i hold
        cases hti : i.instance_type
        · rw [hti] at hbound
          exact Nat.lt_succ_of_lt hbound
        · rw [hti] at hbound
          exact hbound
      · rw [List.mem_singleton] at hnew
        subst hnew
        simp [hty]
    · rw [InstanceManager.modelCount]
      show m.n_3d_buffer + 1 = List.countP _ (m.instances ++ [_])
      rw [List.countP_append]
      simp [hty, h3, InstanceManager.modelCount]
    · rw [InstanceManager.spriteCount]
      show m.n_2d_buffer = List.countP _ (m.instances ++ [_])
      rw [List.countP_append]
      simp [hty, h4, InstanceManager.spriteCount]
    · intro hf
      exact absurd hf (by simp)
  | Sprite =>
    refine ⟨?_, ?_, ?_, ?_, ?_⟩ <;>
      simp only [InstanceManager.register_instance, hty]
    · rw [List.map_append]
      rw [List.nodup_append]
      refine ⟨h1, List.nodup_singleton _, ?_⟩
      intro k hk1 hk2
      simp only [List.map_cons, List.map_nil, List.mem_singleton] at hk2
      obtain ⟨a, ha, hkey⟩ := List.mem_map.mp hk1
      subst hk2
      have hbound := h2 a ha
      have hat : a.instance_type = InstanceType.Sprite := by
        have := congrArg Prod.fst hkey
        simpa [Instance.key] using this
      have hab : a.buffer_id = m.n_2d_buffer := by
        have := congrArg Prod.snd hkey
        simpa [Instance.key] using this
      rw [hat, hab] at hbound
      exact absurd hbound (lt_irrefl _)
    · intro i hi
      rcases List.mem_append.mp hi with hold | hnew
      · have hbound := h2 i hold
        cases hti : i.instance_type
        · rw [hti] at hbound
          exact hbound
        · rw [hti] at hbound
          exact Nat.lt_succ_of_lt hbound
      · rw [List.mem_singleton] at hnew
        subst hnew
        simp [hty]
    · rw [InstanceManager.modelCount]
      show m.n_3d_buffer = List.countP _ (m.instances ++ [_])
      rw [List.countP_append]
      simp [hty, h3, InstanceManager.modelCount]
    · rw [InstanceManager.spriteCount]
      show m.n_2d_buffer + 1 = List.countP _ (m.instances ++ [_])
      rw [List.countP_append]
      simp [hty, h4, InstanceManager.spriteCount]
    · intro hf
      exact absurd hf (by simp)

theorem WF_applyOp (m : InstanceManager) (op : IMOp) (h : m.WF) :
    (m.applyOp op).WF := by
  cases op with
  | register d => exact WF_register m d h
  | push idx c => exact WF_pushChange m idx c h

theorem WF_applyOps (ops : List IMOp) (m : InstanceManager) (h : m.WF) :
    (m.applyOps ops).WF := by
  induction ops generalizing m with
  | nil => exact h
  | cons op ops ih =>
    show ((m.applyOp op).applyOps ops).WF
    exact ih _ (WF_applyOp m op h)

/-! ## Claims -/

/-- Claim C4: Response combine (Response::with) equals the greater of its two
arguments under the order No < Weak < Strong; in particular
with No Weak = Weak, with Weak Strong = Strong, with No No = No, and it is
commutative and associative. -/
theorem response_with_is_lattice_max :
    (∀ a b : Response, a.with b = a.latticeMax b) ∧
    Response.with Response.No Response.Weak = Response.Weak ∧
    Response.with Response.Weak Response.Strong = Response.Strong ∧
    Response.with Response.No Response.No = Response.No ∧
    (∀ a b : Response, a.with b = b.with a) ∧
    (∀ a b c : Response, (a.with b).with c = a.with (b.with c)) := by
  refine ⟨by decide, rfl, rfl, rfl, by decide, by decide⟩

/-- Claim C3: process_events drains the batch of pending events in
last-in-first-out order: the handled sequence is the reverse of the pending
queue (the most recently sent pair first), and the queue is left empty. -/
theorem process_events_lifo {ε : Type} (d : EventDispatcher ε) :
    (d.process_events).2.handled = d.event_queue.reverse ∧
    (d.process_events).1.event_queue = [] := by
  exact ⟨drainList_handled_eq _ _ _, rfl⟩

/-- Claim C8: next_id issues each id by an evolving hash chain: the n-th id
is the finished value of the accumulator state, which then absorbs that very
id; the resulting sequence is not a monotonically increasing counter: already
the second id differs from the first plus one. -/
theorem next_id_hash_chain :
    (∀ n : ℕ,
      idChain n = sipFinish (sipStateAfter n) ∧
      sipStateAfter (n + 1) = sipCompress (sipStateAfter n) (idChain n)) ∧
    idChain 1 ≠ idChain 0 + 1 :=
  ⟨fun _ => ⟨rfl, rfl⟩, by decide⟩

/-- Claim C6: an event sent to a destination name with no registered
subscriber list is removed by the drain, logs exactly one
destination-not-found notice, is delivered to no entity, and the rest of the
batch is still processed; a subscriber id the identity registry cannot
resolve is likewise logged and skipped without aborting the drain. -/
theorem unknown_destination_skipped {ε : Type} (dests : List (String × List ℕ))
    (known : List ℕ) (name : String) (ev : ε) (q₁ q₂ : List (String × ε))
    (h : List.lookup name dests = none) :
    ((drainList dests known (q₁ ++ (name, ev) :: q₂)).handled =
        q₁ ++ (name, ev) :: q₂ ∧
      (drainList dests known (q₁ ++ (name, ev) :: q₂)).delivered =
        (drainList dests known q₁).delivered ++ (drainList dests known q₂).delivered ∧
      (drainList dests known (q₁ ++ (name, ev) :: q₂)).logs =
        (drainList dests known q₁).logs ++
          EvLog.destNotFound name :: (drainList dests known q₂).logs) ∧
    (∀ (name2 : String) (ev2 : ε) (ids : List ℕ) (id2 : ℕ),
      List.lookup name2 dests = some ids → id2 ∉ known →
      (id2, ev2) ∉ dispatchDeliveries dests known (name2, ev2) ∧
      (id2 ∈ ids → EvLog.idNotFound id2 ∈ dispatchLogs dests known (name2, ev2))) := by
  constructor
  · refine ⟨drainList_handled_eq _ _ _, ?_, ?_⟩
    · rw [drainList_delivered_append]
      simp [drainList, dispatchDeliveries, h]
    · rw [drainList_logs_append]
      simp [drainList, dispatchLogs, h]
  · intro name2 ev2 ids id2 h2 hk
    constructor
    · intro hmem
      simp only [dispatchDeliveries, h2, List.mem_filterMap] at hmem
      obtain ⟨a, _, he⟩ := hmem
      by_cases hak : a ∈ known
      · simp only [if_pos hak, Option.some.injEq, Prod.mk.injEq] at he
        exact hk (he.1 ▸ hak)
      · simp [if_neg hak] at he
    · intro hid
      simp only [dispatchLogs, h2, List.mem_filterMap]
      exact ⟨id2, hid, by simp [if_neg hk]⟩

/-- Witness for the C6 theorem at a concrete dispatcher state. -/
theorem unknown_destination_skipped_witness :
    ((List.lookup "x" [("a", [(1 : ℕ)])] : Option (List ℕ)) = none) ∧
    (drainList [("a", [(1 : ℕ)])] [1]
        ([("a", (0 : ℕ))] ++ ("x", (0 : ℕ)) :: [])).handled =
      [("a", (0 : ℕ))] ++ ("x", (0 : ℕ)) :: [] :=
  ⟨rfl,
   (unknown_destination_skipped [("a", [1])] [1] "x" 0 [("a", 0)] [] rfl).1.1⟩

/-- Claim C7: the default transform of every space component is translate
with the vector followed by rotate with the same, unchanged vector; on a 3D
space component, whose translate wants 3 entries and whose rotate wants 4,
no single vector passes both arity checks, so at least one error is logged
by every transform call. -/
theorem transform_translate_then_rotate :
    (∀ (c : SpaceComp) (v : List ℚ) (m : InstanceManager),
      c.transform v m =
        ((c.rotate v (c.translate v m).1).1,
         (c.translate v m).2 ++ (c.rotate v (c.translate v m).1).2)) ∧
    (∀ (d : Vec3) (inst : ℕ) (v : List ℚ) (m : InstanceManager),
      1 ≤ ((SpaceComp.gameSpaceComponent d inst).transform v m).2.length) := by
  constructor
  · intro c v m
    rfl
  · intro d inst v m
    rcases v with _ | ⟨a, _ | ⟨b, _ | ⟨c2, _ | ⟨e, _ | ⟨f, t⟩⟩⟩⟩⟩ <;>
      simp [SpaceComp.transform, SpaceComp.translate, SpaceComp.rotate]

/-- Claim C10: a queued mutation is applied exactly once: Instance::tick
swaps the queue out before applying, so the queue is empty afterwards and
ticking again is a no-op issuing no write; with an empty queue at entry the
position and rotation are unchanged and no buffer write is issued. -/
theorem instance_tick_exactly_once (i : Instance) :
    ((i.tickPure).1.change_buffer = []) ∧
    (i.change_buffer = [] →
      (i.tickPure).1.position = i.position ∧
      (i.tickPure).1.rotation = i.rotation ∧
      (i.tickPure).2 = none) ∧
    (Instance.tickPure (i.tickPure).1 = ((i.tickPure).1, none)) := by
  have hfold : ∀ (cs : List InstanceChange) (i0 : Instance),
      (cs.foldl applyChange i0).change_buffer = i0.change_buffer := by
    intro cs
    induction cs with
    | nil => intro i0; rfl
    | cons c cs ih =>
      intro i0
      rw [List.foldl_cons, ih]
      cases c <;> rfl
  have h1 : (i.tickPure).1.change_buffer = [] := by
    simp only [Instance.tickPure]
    split
    · rfl
    · exact hfold _ _
  refine ⟨h1, ?_, ?_⟩
  · intro h
    simp [Instance.tickPure, h]
  · generalize hj : (i.tickPure).1 = j
    rw [hj] at h1
    obtain ⟨ty, cb, p, r, b⟩ := j
    simp only at h1
    subst h1
    rfl

/-- Witness for the C10 theorem at a concrete clean instance. -/
theorem instance_tick_exactly_once_witness :
    ((⟨InstanceType.Model, [], Vec3.zero, Quat.one, 0⟩ : Instance).tickPure).2 = none :=
  ((instance_tick_exactly_once
      ⟨InstanceType.Model, [], Vec3.zero, Quat.one, 0⟩).2.1 rfl).2.2

/-- Claim C5: a transform vector of the wrong arity is rejected by the 3D
space component as a logged no-op: the engine state (hence the instance
queue, position and rotation) is returned unchanged together with exactly
one logged error, and there is no panic; translate and set_pos require 3
entries, rotate and set_rot require 4. -/
theorem wrong_arity_is_logged_noop (d : Vec3) (inst : ℕ) (m : InstanceManager)
    (u v : List ℚ) (hu : u.length ≠ 3) (hv : v.length ≠ 4) :
    (SpaceComp.gameSpaceComponent d inst).translate u m =
      (m, [SpaceErr.wrongSize "translate" u.length 3]) ∧
    (SpaceComp.gameSpaceComponent d inst).set_pos u m =
      (m, [SpaceErr.wrongSize "set_pos" u.length 3]) ∧
    (SpaceComp.gameSpaceComponent d inst).rotate v m =
      (m, [SpaceErr.wrongSize "rotate" v.length 4]) ∧
    (SpaceComp.gameSpaceComponent d inst).set_rot v m =
      (m, [SpaceErr.wrongSize "set_rot" v.length 4]) := by
  refine ⟨?_, ?_, ?_, ?_⟩
  · simp only [SpaceComp.translate]
    split
    · simp_all
    · rfl
  · simp only [SpaceComp.set_pos]
    split
    · simp_all
    · rfl
  · simp only [SpaceComp.rotate]
    split
    · simp_all
    · rfl
  · simp only [SpaceComp.set_rot]
    split
    · simp_all
    · rfl

/-- Witness for the C5 theorem: a 2-element vector given to translate of a
3D space component leaves the engine untouched and logs one error. -/
theorem wrong_arity_is_logged_noop_witness :
    (([(1 : ℚ), 2] : List ℚ).length ≠ 3) ∧
    (SpaceComp.gameSpaceComponent Vec3.zero 0).translate [1, 2] InstanceManager.init =
      (InstanceManager.init, [SpaceErr.wrongSize "translate" 2 3]) :=
  ⟨by decide, by
    have h := wrong_arity_is_logged_noop Vec3.zero 0 InstanceManager.init
      [1, 2] [1, 2, 3] (by decide) (by decide)
    simpa using h.1⟩

/-- Claim C2: from a well-formed post-tick engine state, after a batch of
inter-tick operations the next tick performs a full rebuild (recomputing
every packed record and re-uploading whole buffers, remake_buffer) exactly
when the batch contained a register_instance; otherwise each instance with a
non-empty queue has its mutations applied in enqueue order (Set replaces the
field, Add accumulates onto it), only its own packed record recomputed and
written at its fixed slot, while every clean instance keeps its state and
its slot content and receives no write. -/
theorem instance_tick_rebuild_policy
    (m : InstanceManager) (ops : List IMOp)
    (hwf : m.WF) (hflag : m.needs_buffer_remake = false) :
    ((((m.applyOps ops).tick).2.fullRebuild = true) ↔
        ops.any IMOp.isRegister = true) ∧
    (((m.applyOps ops).tick).2.fullRebuild = true →
      ((m.applyOps ops).tick).1 = (m.applyOps ops).remake_buffer) ∧
    (ops.any IMOp.isRegister = false →
      ∀ j i, (m.applyOps ops).instances.get? j = some i →
        (((m.applyOps ops).tick).1.instances.get? j = some (i.tickPure).1 ∧
         ((i.tickPure).1).change_buffer = [] ∧
         (i.change_buffer = [] →
           (i.tickPure).1.position = i.position ∧
           (i.tickPure).1.rotation = i.rotation ∧
           ((m.applyOps ops).tick).1.slotValue i.instance_type i.buffer_id =
             (m.applyOps ops).slotValue i.instance_type i.buffer_id ∧
           ∀ wr ∈ ((m.applyOps ops).tick).2.writes,
             ¬(wr.raw.ty = i.instance_type ∧ wr.slot = i.buffer_id)) ∧
         (i.change_buffer ≠ [] →
           (i.tickPure).1 =
             i.change_buffer.foldl applyChange { i with change_buffer := [] } ∧
           ((m.applyOps ops).tick).1.slotValue i.instance_type i.buffer_id =
             some ((i.tickPure).1.to_raw) ∧
           (⟨i.buffer_id, (i.tickPure).1.to_raw⟩ : WriteRec) ∈
             ((m.applyOps ops).tick).2.writes))) ∧
    (∀ (i0 : Instance) (p : Vec3),
      applyChange i0 (InstanceChange.PositionSet p) = { i0 with position := p }) ∧
    (∀ (i0 : Instance) (p : Vec3),
      applyChange i0 (InstanceChange.PositionAdd p) =
        { i0 with position := i0.position.add p }) ∧
    (∀ (i0 : Instance) (r : Quat),
      applyChange i0 (InstanceChange.RotationSet r) = { i0 with rotation := r }) ∧
    (∀ (i0 : Instance) (r : Quat),
      applyChange i0 (InstanceChange.RotationAdd r) =
        { i0 with rotation := i0.rotation.add r }) := by
  have hWF1 : (m.applyOps ops).WF := WF_applyOps ops m hwf
  have hflag1 : (m.applyOps ops).needs_buffer_remake = ops.any IMOp.isRegister := by
    rw [applyOps_flag, hflag, Bool.false_or]
  refine ⟨?_, ?_, ?_, fun i0 p => rfl, fun i0 p => rfl, fun i0 r => rfl,
    fun i0 r => rfl⟩
  · rw [tick_fullRebuild, hflag1]
  · intro hfr
    rw [tick_fullRebuild, hflag1] at hfr
    have hflag2 : (m.applyOps ops).needs_buffer_remake = true := by
      rw [hflag1, hfr]
    simp [InstanceManager.tick, hflag2]
  · intro hops j i hget
    have hflag2 : (m.applyOps ops).needs_buffer_remake = false := by
      rw [hflag1, hops]
    have htick : (m.applyOps ops).tick =
        (((m.applyOps ops).tickInstances).1,
         ⟨false, ((m.applyOps ops).tickInstances).2⟩) := by
      simp [InstanceManager.tick, hflag2]
    obtain ⟨hnd, hbound, hn3, hn2, hlen⟩ := hWF1
    obtain ⟨hlen3, hlen2⟩ := hlen hflag2
    have hmem : i ∈ (m.applyOps ops).instances := List.get?_mem hget
    have hsplit := list_split_get? (m.applyOps ops).instances j i hget
    -- the key of i occurs nowhere else in the instance vector
    have hkeyout :
        Instance.key i ∉
            ((m.applyOps ops).instances.take j).map Instance.key ∧
        Instance.key i ∉
            ((m.applyOps ops).instances.drop (j + 1)).map Instance.key := by
      have hnd2 := hnd
      rw [hsplit, List.map_append, List.map_cons] at hnd2
      have hmid := List.nodup_middle.mp hnd2
      rw [List.nodup_cons] at hmid
      have := hmid.1
      rw [List.mem_append] at this
      exact ⟨fun hmem2 => this (Or.inl hmem2), fun hmem2 => this (Or.inr hmem2)⟩
    -- every write carries the key of the originating instance
    have hwrkey : ∀ a : Instance, ∀ wr : WriteRec, (a.tickPure).2 = some wr →
        wr.raw.ty = a.instance_type ∧ wr.slot = a.buffer_id ∧
          a.change_buffer ≠ [] := by
      intro a wr hsome
      by_cases hcb : a.change_buffer = []
      · rw [tickPure_eq_of_nil a hcb] at hsome
        cases hsome
      · rw [tickPure_eq_of_ne_nil a hcb] at hsome
        have hw := Option.some.inj hsome
        subst hw
        refine ⟨?_, ?_, hcb⟩
        · rw [to_raw_ty, foldl_applyChange_type]
        · rfl
    -- the per-type buffer length covers the slot of every instance
    have hslotlen : ∀ a : Instance, a ∈ (m.applyOps ops).instances →
        a.buffer_id < (m.applyOps ops).bufs.tyLength a.instance_type := by
      intro a ha
      have hb := hbound a ha
      cases hta : a.instance_type
      · rw [hta] at hb
        rw [GpuBuffers.tyLength, hlen3, ← hn3]
        exact hb
      · rw [hta] at hb
        rw [GpuBuffers.tyLength, hlen2, ← hn2]
        exact hb
    rw [htick]
    refine ⟨?_, tickPure_fst_cb i, ?_, ?_⟩
    · show (((m.applyOps ops).instances.map Instance.tickPure).map Prod.fst).get? j =
        some (i.tickPure).1
      rw [List.get?_map, List.get?_map, hget]
      rfl
    · -- clean instance
      intro hcb
      have hclean := tickPure_eq_of_nil i hcb
      have hnotarget : ∀ wr ∈ ((m.applyOps ops).instances.map
            Instance.tickPure).filterMap Prod.snd,
          ¬(wr.raw.ty = i.instance_type ∧ wr.slot = i.buffer_id) := by
        intro wr hwr ⟨hty, hslot⟩
        obtain ⟨a, ha, hsome⟩ := (mem_tickWrites _ wr).mp hwr
        obtain ⟨hty2, hslot2, hane⟩ := hwrkey a wr hsome
        have hkey : Instance.key a = Instance.key i := by
          rw [Instance.key, Instance.key, ← hty2, ← hslot2, hty, hslot]
        rw [hsplit] at ha
        rcases List.mem_append.mp ha with ha2 | ha2
        · exact hkeyout.1 (hkey ▸ List.mem_map_of_mem Instance.key ha2)
        · rcases List.mem_cons.mp ha2 with ha3 | ha3
          · subst ha3
            exact hane hcb
          · exact hkeyout.2 (hkey ▸ List.mem_map_of_mem Instance.key ha3)
      refine ⟨by rw [hclean], by rw [hclean], ?_, hnotarget⟩
      show GpuBuffers.slotVal _ i.instance_type i.buffer_id =
        GpuBuffers.slotVal _ i.instance_type i.buffer_id
      exact foldl_applyWrite_slotVal_none _ _ _ _ hnotarget
    · -- dirty instance
      intro hcb
      have hdirty := tickPure_eq_of_ne_nil i hcb
      have hfst : (i.tickPure).1 =
          i.change_buffer.foldl applyChange { i with change_buffer := [] } := by
        rw [hdirty]
      have hsnd : (i.tickPure).2 =
          some ⟨i.buffer_id, (i.tickPure).1.to_raw⟩ := by
        rw [hdirty]
      -- split of the write list around the write of instance i
      have hws : ((m.applyOps ops).instances.map Instance.tickPure).filterMap
            Prod.snd =
          (((m.applyOps ops).instances.take j).map Instance.tickPure).filterMap
              Prod.snd ++
            (⟨i.buffer_id, (i.tickPure).1.to_raw⟩ : WriteRec) ::
              (((m.applyOps ops).instances.drop (j + 1)).map
                  Instance.tickPure).filterMap Prod.snd := by
        conv_lhs => rw [hsplit]
        rw [List.map_append, List.map_cons, List.filterMap_append,
          List.filterMap_cons, hsnd]
      have hCtarget : ∀ wr ∈ (((m.applyOps ops).instances.drop (j + 1)).map
            Instance.tickPure).filterMap Prod.snd,
          ¬(wr.raw.ty = i.instance_type ∧ wr.slot = i.buffer_id) := by
        intro wr hwr ⟨hty, hslot⟩
        obtain ⟨a, ha, hsome⟩ := (mem_tickWrites _ wr).mp hwr
        obtain ⟨hty2, hslot2, _⟩ := hwrkey a wr hsome
        have hkey : Instance.key a = Instance.key i := by
          rw [Instance.key, Instance.key, ← hty2, ← hslot2, hty, hslot]
        exact hkeyout.2 (hkey ▸ List.mem_map_of_mem Instance.key ha)
      have hwty : ((⟨i.buffer_id, (i.tickPure).1.to_raw⟩ : WriteRec)).raw.ty =
          i.instance_type := by
        show ((i.tickPure).1.to_raw).ty = i.instance_type
        rw [to_raw_ty, tickPure_fst_type]
      refine ⟨hfst, ?_, ?_⟩
      · show ((((m.applyOps ops).instances.map Instance.tickPure).filterMap
            Prod.snd).foldl GpuBuffers.applyWrite
            (m.applyOps ops).bufs).slotVal i.instance_type i.buffer_id =
          some ((i.tickPure).1.to_raw)
        rw [hws]
        have := applyWrites_middle
          ((((m.applyOps ops).instances.take j).map Instance.tickPure).filterMap
            Prod.snd)
          ((((m.applyOps ops).instances.drop (j + 1)).map
            Instance.tickPure).filterMap Prod.snd)
          ⟨i.buffer_id, (i.tickPure).1.to_raw⟩
          (m.applyOps ops).bufs
          (by
            intro w2 hw2
            rw [hwty]
            exact hCtarget w2 hw2)
          (by
            rw [hwty]
            exact hslotlen i hmem)
        rw [hwty] at this
        exact this
      · show (⟨i.buffer_id, (i.tickPure).1.to_raw⟩ : WriteRec) ∈
          ((m.applyOps ops).instances.map Instance.tickPure).filterMap Prod.snd
        rw [hws]
        exact List.mem_append_right _ (List.mem_cons_self _ _)

/-- Witness for the C2 theorem at a concrete engine state: one registered
instance, one tick, then a batch with a structural registration, whose next
tick is a full rebuild. -/
theorem instance_tick_rebuild_policy_witness :
    ((((InstanceManager.init.register_instance {}).1.tick.1).applyOps
        [IMOp.register {}]).tick).2.fullRebuild = true :=
  (instance_tick_rebuild_policy ((InstanceManager.init.register_instance {}).1.tick.1)
      [IMOp.register {}] (by decide) (by decide)).1.mpr (by decide)

theorem worldSim_refl (w : World) : worldSim w w :=
  ⟨rfl, rfl, fun j e h => ⟨e, h, rfl, rfl⟩⟩

theorem worldSim_trans {w1 w2 w3 : World} (h12 : worldSim w1 w2)
    (h23 : worldSim w2 w3) : worldSim w1 w3 := by
  obtain ⟨ha, hb, hc⟩ := h12
  obtain ⟨hd, he, hf⟩ := h23
  refine ⟨hd.trans ha, he.trans hb, ?_⟩
  intro j e h
  obtain ⟨e2, h2, hi2, hp2⟩ := hc j e h
  obtain ⟨e3, h3, hi3, hp3⟩ := hf j e2 h2
  exact ⟨e3, h3, hi3.trans hi2, hp3.trans hp2⟩

theorem worldSim_setEnt (w : World) (j : ℕ) (c e : Entity)
    (hc : w.getEnt j = some c) (hid : e.id = c.id)
    (hpar : e.parent_id = c.parent_id) :
    worldSim w (w.setEnt j e) := by
  obtain ⟨hlt, _⟩ := List.get?_eq_some.mp hc
  refine ⟨rfl, by simp [World.setEnt], ?_⟩
  intro k ek hk
  by_cases hkj : k = j
  · subst hkj
    have hek : ek = c := by
      rw [hk] at hc
      exact Option.some.inj hc
    refine ⟨e, ?_, ?_, ?_⟩
    · show (w.entities.set k e).get? k = some e
      rw [List.get?_set_eq_of_lt _ hlt]
    · rw [hek, hid]
    · rw [hek, hpar]
  · refine ⟨ek, ?_, rfl, rfl⟩
    show (w.entities.set j e).get? k = some ek
    rw [List.get?_set_ne _ _ (fun h => hkj h.symm)]
    exact hk

theorem worldSim_initChildStep (w : World) (pEnt : Entity) (cIdx : ℕ) :
    worldSim w (initChildStep w pEnt cIdx) := by
  unfold initChildStep
  cases pEnt.space_component with
  | gameSpaceMaster disp =>
    simp only
    cases hc : ({ w with im := (w.im.register_instance {}).1 } : World).getEnt cIdx with
    | none => exact ⟨rfl, rfl, fun j e h => ⟨e, h, rfl, rfl⟩⟩
    | some c =>
      have hsim1 : worldSim w { w with im := (w.im.register_instance {}).1 } :=
        ⟨rfl, rfl, fun j e h => ⟨e, h, rfl, rfl⟩⟩
      exact worldSim_trans hsim1 (worldSim_setEnt _ cIdx c _ hc rfl rfl)
  | noSpaceMaster => exact worldSim_refl w
  | noSpaceComponent => exact worldSim_refl w
  | gameSpaceComponent disp inst => exact worldSim_refl w

theorem lookupEnt_of_worldSim {w w2 : World} (hs : worldSim w w2) (pid : ℕ) :
    w2.lookupEnt pid = w.lookupEnt pid := by
  show w2.idMap.lookup pid = w.idMap.lookup pid
  rw [hs.1]

theorem chainFromB_of_worldSim {w w2 : World} (hs : worldSim w w2) :
    ∀ (js : List ℕ) (pid : ℕ),
      chainFromB w pid js = true → chainFromB w2 pid js = true := by
  intro js
  induction js with
  | nil => intro pid h; exact h
  | cons j js ih =>
    intro pid h
    rw [chainFromB, Bool.and_eq_true, Bool.and_eq_true] at h
    obtain ⟨⟨hpid, hlk⟩, hrest⟩ := h
    rw [decide_eq_true_eq] at hlk
    cases he : w.getEnt j with
    | none => rw [he] at hrest; cases hrest
    | some e =>
      rw [he] at hrest
      have hrest2 : chainFromB w e.parent_id js = true := hrest
      obtain ⟨e2, he2, _, hp2⟩ := hs.2.2 j e he
      rw [chainFromB, Bool.and_eq_true, Bool.and_eq_true]
      refine ⟨⟨hpid, ?_⟩, ?_⟩
      · rw [decide_eq_true_eq, lookupEnt_of_worldSim hs, hlk]
      · rw [he2]
        show chainFromB w2 e2.parent_id js = true
        rw [hp2]
        exact ih _ hrest2

theorem initWalk_sim (fuel : ℕ) :
    ∀ (w : World) (cIdx pid : ℕ) (depth : ℤ) (w3 : World),
      initWalk fuel w cIdx pid depth = some w3 → worldSim w w3 := by
  induction fuel with
  | zero =>
    intro w cIdx pid depth w3 h
    rw [initWalk] at h
    by_cases hp : pid = 0
    · rw [if_pos hp] at h
      cases h
      exact worldSim_refl w
    · rw [if_neg hp] at h
      cases h
  | succ f ih =>
    intro w cIdx pid depth w3 h
    rw [initWalk] at h
    by_cases hp : pid = 0
    · rw [if_pos hp] at h
      cases h
      exact worldSim_refl w
    · rw [if_neg hp] at h
      split at h
      next => cases h
      next pIdx heq =>
        split at h
        next => cases h
        next pEnt heq2 =>
          exact worldSim_trans (worldSim_initChildStep w pEnt cIdx) (ih _ _ _ _ _ h)

theorem initWalk_some_of_chain :
    ∀ (js : List ℕ) (fuel : ℕ) (w : World) (cIdx pid : ℕ) (depth : ℤ),
      chainFromB w pid js = true → js.length ≤ fuel →
      ∃ w3, initWalk fuel w cIdx pid depth = some w3 := by
  intro js
  induction js with
  | nil =>
    intro fuel w cIdx pid depth hch _
    have hpid : pid = 0 := by
      rw [chainFromB, decide_eq_true_eq] at hch
      exact hch
    refine ⟨w, ?_⟩
    cases fuel <;> rw [initWalk, if_pos hpid]
  | cons j js ih =>
    intro fuel w cIdx pid depth hch hle
    rw [chainFromB, Bool.and_eq_true, Bool.and_eq_true] at hch
    obtain ⟨⟨hpid, hlk⟩, hrest⟩ := hch
    rw [decide_eq_true_eq] at hpid hlk
    cases he : w.getEnt j with
    | none => rw [he] at hrest; cases hrest
    | some e =>
      rw [he] at hrest
      cases fuel with
      | zero => exact absurd hle (by simp)
      | succ f =>
        have hch2 : chainFromB (initChildStep w e cIdx) e.parent_id js = true :=
          chainFromB_of_worldSim (worldSim_initChildStep w e cIdx) js _ hrest
        obtain ⟨w3, hw3⟩ :=
          ih f (initChildStep w e cIdx) cIdx e.parent_id (depth + 1) hch2
            (Nat.le_of_succ_le_succ hle)
        refine ⟨w3, ?_⟩
        rw [initWalk, if_neg hpid, hlk]
        show (match w.getEnt j with
          | none => none
          | some pEnt =>
            initWalk f (initChildStep w pEnt cIdx) cIdx pEnt.parent_id (depth + 1)) =
          some w3
        rw [he]
        exact hw3

/-- Claim C9: after EntityManager::new the entity at index 0 is the root,
with id 0 and itself as parent; new_entity only appends to the entity vector
(each existing index keeps its entity, with id and parent id intact) while
tick, render and input only read it; hence get_root always succeeds under
the root invariant, and the ancestor walk of new_entity terminates for every
entity whose ancestor chain reaches the root. -/
theorem entity_vector_append_only :
    (∃ e, World.initial.getRoot = some e ∧ e.id = 0 ∧ e.parent_id = 0) ∧
    (∀ (w : World) (d : EntityDesc) (p : ℕ) (w2 : World) (cIdx : ℕ),
      w.newEntity d p = some (w2, cIdx) →
      w2.entities.length = w.entities.length + 1 ∧
      ∀ j e, w.getEnt j = some e →
        ∃ e2, w2.getEnt j = some e2 ∧ e2.id = e.id ∧ e2.parent_id = e.parent_id) ∧
    (∀ w : World, w.tick = w) ∧
    (∀ (w : World) (d : EntityDesc) (p : ℕ) (w2 : World) (cIdx : ℕ),
      RootInv w → w.newEntity d p = some (w2, cIdx) → RootInv w2) ∧
    (∀ w : World, RootInv w →
      ∃ e, w.getRoot = some e ∧ e.id = 0 ∧ e.parent_id = 0) ∧
    (∀ (fuel : ℕ) (w : World) (cIdx pid : ℕ) (depth : ℤ) (js : List ℕ),
      chainFromB w pid js = true → js.length ≤ fuel →
      ∃ w3, initWalk fuel w cIdx pid depth = some w3) := by
  have hsetlen : ∀ (v : World) (k : ℕ) (e : Entity),
      (v.setEnt k e).entities.length = v.entities.length := by
    intro v k e
    simp [World.setEnt]
  have hstep : ∀ (w : World) (d : EntityDesc) (p : ℕ) (w2 : World) (cIdx : ℕ),
      w.newEntity d p = some (w2, cIdx) →
      w2.entities.length = w.entities.length + 1 ∧
      ∀ j e, w.getEnt j = some e →
        ∃ e2, w2.getEnt j = some e2 ∧ e2.id = e.id ∧ e2.parent_id = e.parent_id := by
    intro w d p w2 cIdx h
    simp only [World.newEntity] at h
    split at h
    next => cases h
    next pIdx heq =>
      split at h
      next => cases h
      next pEnt heq2 =>
        split at h
        next => cases h
        next w3 heq3 =>
          split at h
          next => cases h
          next c heq4 =>
            have hinj := Option.some.inj h
            have hw2 : { w3 with
                im := (c.space_component.translate
                  [d.position.x, d.position.y, d.position.z] w3.im).1 } = w2 :=
              congrArg Prod.fst hinj
            have hsim2 := worldSim_setEnt _ pIdx pEnt
              { pEnt with children := pEnt.children ++ [w.entities.length] }
              heq2 rfl rfl
            have hsim3 := initWalk_sim _ _ _ _ _ _ heq3
            have hsim := worldSim_trans hsim2 hsim3
            constructor
            · rw [← hw2]
              show w3.entities.length = w.entities.length + 1
              rw [hsim.2.1]
              simp [World.setEnt, World.withNewChild]
            · intro j e he
              have he1 : (w.withNewChild d p).getEnt j = some e := by
                show (w.entities ++ _).get? j = some e
                obtain ⟨hlt, _⟩ := List.get?_eq_some.mp he
                rw [List.get?_append hlt]
                exact he
              obtain ⟨e2, he2, hi2, hp2⟩ := hsim.2.2 j e he1
              refine ⟨e2, ?_, hi2, hp2⟩
              rw [← hw2]
              exact he2
  refine ⟨?_, hstep, fun w => rfl, ?_, fun w h => h, ?_⟩
  · exact ⟨⟨0, 0, [1], RenderComp.noRender, SpaceComp.noSpaceMaster, []⟩,
      rfl, rfl, rfl⟩
  · intro w d p w2 cIdx hroot hne
    obtain ⟨e, he, hid, hpar⟩ := hroot
    obtain ⟨e2, he2, hi2, hp2⟩ := (hstep w d p w2 cIdx hne).2 0 e he
    exact ⟨e2, he2, hi2.trans hid, hp2.trans hpar⟩
  · intro fuel w cIdx pid depth js hch hle
    exact initWalk_some_of_chain js fuel w cIdx pid depth hch hle

/-- Witness for the C9 theorem: creating an entity under the root of the
initial world appends exactly one entity. -/
theorem entity_vector_append_only_witness :
    ∃ w2 cIdx, World.initial.newEntity {} 0 = some (w2, cIdx) ∧
      w2.entities.length = World.initial.entities.length + 1 := by
  have hsome : (World.initial.newEntity {} 0).isSome = true := by decide
  obtain ⟨pr, hEq⟩ := Option.isSome_iff_exists.mp hsome
  obtain ⟨w2, cIdx⟩ := pr
  exact ⟨w2, cIdx, hEq,
    (entity_vector_append_only.2.1 World.initial {} 0 w2 cIdx hEq).1⟩

theorem isMasterAt_of_getEnt (v : World) (j : ℕ) (e : Entity)
    (he : v.getEnt j = some e) :
    isMasterAt v j =
      (match e.space_component with
       | SpaceComp.gameSpaceMaster _ => true
       | _ => false) := by
  unfold isMasterAt
  rw [he]

theorem not_master_of_isMasterAt_false (w : World) (j : ℕ) (e : Entity)
    (he : w.getEnt j = some e) (h : isMasterAt w j = false) :
    ∀ d : Vec3, e.space_component ≠ SpaceComp.gameSpaceMaster d := by
  intro d hd
  rw [isMasterAt_of_getEnt w j e he, hd] at h
  cases h

theorem initChildStep_eq_of_not_master (w : World) (e : Entity) (cIdx : ℕ)
    (h : ∀ d : Vec3, e.space_component ≠ SpaceComp.gameSpaceMaster d) :
    initChildStep w e cIdx = w := by
  unfold initChildStep
  cases hs : e.space_component with
  | gameSpaceMaster d => exact absurd hs (h d)
  | noSpaceMaster => rfl
  | noSpaceComponent => rfl
  | gameSpaceComponent d inst => rfl

theorem initChildStep_master (v : World) (e : Entity) (cIdx : ℕ) (dm : Vec3)
    (c0 : Entity) (hsp : e.space_component = SpaceComp.gameSpaceMaster dm)
    (hc0 : v.getEnt cIdx = some c0) :
    initChildStep v e cIdx =
      ({ v with im := (v.im.register_instance {}).1 } : World).setEnt cIdx
        { c0 with
            space_component :=
              SpaceComp.gameSpaceComponent dm v.im.instances.length
            render_component :=
              RenderComp.single3DInstance "cube" v.im.instances.length } := by
  unfold initChildStep
  rw [hsp]
  show (match (({ v with im := (v.im.register_instance {}).1 } : World)).getEnt cIdx with
    | none => ({ v with im := (v.im.register_instance {}).1 } : World)
    | some c =>
      ({ v with im := (v.im.register_instance {}).1 } : World).setEnt cIdx
        { c with
            space_component :=
              SpaceComp.gameSpaceComponent dm v.im.instances.length
            render_component :=
              RenderComp.single3DInstance "cube" v.im.instances.length }) = _
  have hc0b : (({ v with im := (v.im.register_instance {}).1 } : World)).getEnt cIdx =
      some c0 := hc0
  rw [hc0b]

theorem chainFromB_congr (v v2 : World) (hmap : v2.idMap = v.idMap) :
    ∀ (js : List ℕ) (pid : ℕ),
      (∀ j ∈ js, v2.getEnt j = v.getEnt j) →
      chainFromB v pid js = true → chainFromB v2 pid js = true := by
  intro js
  induction js with
  | nil => intro pid _ h; exact h
  | cons j js ih =>
    intro pid hget h
    rw [chainFromB, Bool.and_eq_true, Bool.and_eq_true] at h
    obtain ⟨⟨hpid, hlk⟩, hrest⟩ := h
    rw [decide_eq_true_eq] at hlk
    cases he : v.getEnt j with
    | none => rw [he] at hrest; cases hrest
    | some e =>
      rw [he] at hrest
      have hrest2 : chainFromB v e.parent_id js = true := hrest
      rw [chainFromB, Bool.and_eq_true, Bool.and_eq_true]
      refine ⟨⟨hpid, ?_⟩, ?_⟩
      · rw [decide_eq_true_eq]
        show v2.idMap.lookup pid = some j
        rw [hmap]
        exact hlk
      · rw [hget j (List.mem_cons_self j js), he]
        show chainFromB v2 e.parent_id js = true
        exact ih _ (fun k hk => hget k (List.mem_cons_of_mem j hk)) hrest2

theorem chainFromB_mono (v v2 : World)
    (hmap : ∀ pid j, v.lookupEnt pid = some j → v2.lookupEnt pid = some j)
    (hget : ∀ j e, v.getEnt j = some e → v2.getEnt j = some e) :
    ∀ (js : List ℕ) (pid : ℕ),
      chainFromB v pid js = true → chainFromB v2 pid js = true := by
  intro js
  induction js with
  | nil => intro pid h; exact h
  | cons j js ih =>
    intro pid h
    rw [chainFromB, Bool.and_eq_true, Bool.and_eq_true] at h
    obtain ⟨⟨hpid, hlk⟩, hrest⟩ := h
    rw [decide_eq_true_eq] at hlk
    cases he : v.getEnt j with
    | none => rw [he] at hrest; cases hrest
    | some e =>
      rw [he] at hrest
      have hrest2 : chainFromB v e.parent_id js = true := hrest
      rw [chainFromB, Bool.and_eq_true, Bool.and_eq_true]
      refine ⟨⟨hpid, ?_⟩, ?_⟩
      · rw [decide_eq_true_eq]
        exact hmap pid j hlk
      · rw [hget j e he]
        show chainFromB v2 e.parent_id js = true
        exact ih _ hrest2

theorem chainFromB_mem_some (v : World) :
    ∀ (js : List ℕ) (pid : ℕ), chainFromB v pid js = true →
      ∀ j ∈ js, ∃ e, v.getEnt j = some e := by
  intro js
  induction js with
  | nil => intro pid _ j hj; cases hj
  | cons j0 js ih =>
    intro pid h j hj
    rw [chainFromB, Bool.and_eq_true, Bool.and_eq_true] at h
    obtain ⟨⟨_, _⟩, hrest⟩ := h
    cases he : v.getEnt j0 with
    | none => rw [he] at hrest; cases hrest
    | some e =>
      rw [he] at hrest
      have hrest2 : chainFromB v e.parent_id js = true := hrest
      rcases List.mem_cons.mp hj with hj0 | hjs
      · exact ⟨e, hj0 ▸ he⟩
      · exact ih _ hrest2 j hjs

theorem lookupEnt_withNewChild (w : World) (d : EntityDesc) (p pid : ℕ)
    (hfresh : w.lookupEnt (nextId w.idState).1 = none)
    (j : ℕ) (h : w.lookupEnt pid = some j) :
    (w.withNewChild d p).lookupEnt pid = some j := by
  have hne : pid ≠ (nextId w.idState).1 := by
    intro he
    rw [he, hfresh] at h
    cases h
  have hb : (pid == (nextId w.idState).1) = false := beq_eq_false_iff_ne.mpr hne
  show List.lookup pid (((nextId w.idState).1, w.entities.length) :: w.idMap) =
    some j
  simp only [List.lookup, hb]
  exact h

theorem getEnt_withNewChild (w : World) (d : EntityDesc) (p : ℕ) (j : ℕ)
    (e : Entity) (h : w.getEnt j = some e) :
    (w.withNewChild d p).getEnt j = some e := by
  show (w.entities ++ _).get? j = some e
  obtain ⟨hlt, _⟩ := List.get?_eq_some.mp h
  rw [List.get?_append hlt]
  exact h

theorem initWalk_nomaster :
    ∀ (js : List ℕ) (fuel : ℕ) (v : World) (cIdx pid : ℕ) (depth : ℤ),
      chainFromB v pid js = true →
      (∀ j ∈ js, isMasterAt v j = false) →
      js.length ≤ fuel →
      initWalk fuel v cIdx pid depth = some v := by
  intro js
  induction js with
  | nil =>
    intro fuel v cIdx pid depth hch _ _
    have hpid : pid = 0 := by
      rw [chainFromB, decide_eq_true_eq] at hch
      exact hch
    cases fuel <;> rw [initWalk, if_pos hpid]
  | cons j js ih =>
    intro fuel v cIdx pid depth hch hnm hle
    rw [chainFromB, Bool.and_eq_true, Bool.and_eq_true] at hch
    obtain ⟨⟨hpid, hlk⟩, hrest⟩ := hch
    rw [decide_eq_true_eq] at hpid hlk
    cases he : v.getEnt j with
    | none => rw [he] at hrest; cases hrest
    | some e =>
      rw [he] at hrest
      have hrest2 : chainFromB v e.parent_id js = true := hrest
      cases fuel with
      | zero => exact absurd hle (by simp)
      | succ f =>
        rw [initWalk, if_neg hpid, hlk]
        show (match v.getEnt j with
          | none => none
          | some pEnt =>
            initWalk f (initChildStep v pEnt cIdx) cIdx pEnt.parent_id (depth + 1)) =
          some v
        rw [he]
        show initWalk f (initChildStep v e cIdx) cIdx e.parent_id (depth + 1) = some v
        rw [initChildStep_eq_of_not_master v e cIdx
          (not_master_of_isMasterAt_false v j e he (hnm j (List.mem_cons_self j js)))]
        exact ih f v cIdx e.parent_id (depth + 1) hrest2
          (fun k hk => hnm k (List.mem_cons_of_mem j hk))
          (Nat.le_of_succ_le_succ hle)

theorem initWalk_cascade :
    ∀ (js₁ : List ℕ) (fuel : ℕ) (v : World) (cIdx pid : ℕ) (depth : ℤ)
      (jm : ℕ) (js₂ : List ℕ) (me c0 : Entity) (dm : Vec3),
      chainFromB v pid (js₁ ++ jm :: js₂) = true →
      v.getEnt jm = some me →
      me.space_component = SpaceComp.gameSpaceMaster dm →
      (∀ j ∈ js₁, isMasterAt v j = false) →
      (∀ j ∈ js₂, isMasterAt v j = false) →
      v.getEnt cIdx = some c0 →
      (∀ j ∈ js₂, j ≠ cIdx) →
      js₁.length + (js₂.length + 1) ≤ fuel →
      initWalk fuel v cIdx pid depth = some
        (({ v with im := (v.im.register_instance {}).1 } : World).setEnt cIdx
          { c0 with
              space_component :=
                SpaceComp.gameSpaceComponent dm v.im.instances.length
              render_component :=
                RenderComp.single3DInstance "cube" v.im.instances.length }) := by
  intro js₁
  induction js₁ with
  | nil =>
    intro fuel v cIdx pid depth jm js₂ me c0 dm hch hm hsp h1 h2 hc0 hne2 hle
    rw [List.nil_append] at hch
    rw [chainFromB, Bool.and_eq_true, Bool.and_eq_true] at hch
    obtain ⟨⟨hpid, hlk⟩, hrest⟩ := hch
    rw [decide_eq_true_eq] at hpid hlk
    rw [hm] at hrest
    have hrest2 : chainFromB v me.parent_id js₂ = true := hrest
    cases fuel with
    | zero => exact absurd hle (by simp)
    | succ f =>
      rw [initWalk, if_neg hpid, hlk]
      show (match v.getEnt jm with
        | none => none
        | some pEnt =>
          initWalk f (initChildStep v pEnt cIdx) cIdx pEnt.parent_id (depth + 1)) =
        _
      rw [hm]
      show initWalk f (initChildStep v me cIdx) cIdx me.parent_id (depth + 1) = _
      rw [initChildStep_master v me cIdx dm c0 hsp hc0]
      obtain ⟨hltc, _⟩ := List.get?_eq_some.mp hc0
      have hgother : ∀ j, j ≠ cIdx →
          ((({ v with im := (v.im.register_instance {}).1 } : World)).setEnt cIdx
            { c0 with
                space_component :=
                  SpaceComp.gameSpaceComponent dm v.im.instances.length
                render_component :=
                  RenderComp.single3DInstance "cube" v.im.instances.length }).getEnt j =
            v.getEnt j := by
        intro j hj
        show (v.entities.set cIdx _).get? j = v.entities.get? j
        exact List.get?_set_ne _ _ (fun hh => hj hh.symm)
      apply initWalk_nomaster js₂ f _ cIdx me.parent_id (depth + 1)
      · refine chainFromB_congr v _ ?_ js₂ me.parent_id ?_ hrest2
        · rfl
        · exact fun j hj => hgother j (hne2 j hj)
      · intro j hj
        unfold isMasterAt
        rw [hgother j (hne2 j hj)]
        show isMasterAt v j = false
        exact h2 j hj
      · exact Nat.le_of_succ_le_succ (by simpa using hle)
  | cons j0 js₁ ih =>
    intro fuel v cIdx pid depth jm js₂ me c0 dm hch hm hsp h1 h2 hc0 hne2 hle
    rw [List.cons_append] at hch
    rw [chainFromB, Bool.and_eq_true, Bool.and_eq_true] at hch
    obtain ⟨⟨hpid, hlk⟩, hrest⟩ := hch
    rw [decide_eq_true_eq] at hpid hlk
    cases he : v.getEnt j0 with
    | none => rw [he] at hrest; cases hrest
    | some e =>
      rw [he] at hrest
      have hrest2 : chainFromB v e.parent_id (js₁ ++ jm :: js₂) = true := hrest
      cases fuel with
      | zero => exact absurd hle (by simp)
      | succ f =>
        rw [initWalk, if_neg hpid, hlk]
        show (match v.getEnt j0 with
          | none => none
          | some pEnt =>
            initWalk f (initChildStep v pEnt cIdx) cIdx pEnt.parent_id (depth + 1)) =
          _
        rw [he]
        show initWalk f (initChildStep v e cIdx) cIdx e.parent_id (depth + 1) = _
        rw [initChildStep_eq_of_not_master v e cIdx
          (not_master_of_isMasterAt_false v j0 e he (h1 j0 (List.mem_cons_self j0 js₁)))]
        exact ih f v cIdx e.parent_id (depth + 1) jm js₂ me c0 dm hrest2 hm hsp
          (fun k hk => h1 k (List.mem_cons_of_mem j0 hk)) h2 hc0 hne2
          (by
            rw [List.length_cons] at hle
            omega)

theorem newEntity_eq (w : World) (desc : EntityDesc) (parentId pIdx : ℕ)
    (pEnt : Entity) (w3 : World) (c : Entity)
    (hlk : (w.withNewChild desc parentId).lookupEnt parentId = some pIdx)
    (hge : (w.withNewChild desc parentId).getEnt pIdx = some pEnt)
    (hwalk : initWalk
        ((w.withNewChild desc parentId).setEnt pIdx
          { pEnt with children := pEnt.children ++ [w.entities.length] }).entities.length
        ((w.withNewChild desc parentId).setEnt pIdx
          { pEnt with children := pEnt.children ++ [w.entities.length] })
        w.entities.length parentId 0 = some w3)
    (hc : w3.getEnt w.entities.length = some c) :
    w.newEntity desc parentId =
      some ({ w3 with
          im := (c.space_component.translate
            [desc.position.x, desc.position.y, desc.position.z] w3.im).1 },
        w.entities.length) := by
  simp only [World.newEntity]
  split
  next heq => rw [hlk] at heq; cases heq
  next pIdx2 heq =>
    rw [hlk] at heq
    obtain rfl : pIdx = pIdx2 := Option.some.inj heq
    split
    next heq2 => rw [hge] at heq2; cases heq2
    next pEnt2 heq2 =>
      rw [hge] at heq2
      obtain rfl : pEnt = pEnt2 := Option.some.inj heq2
      split
      next heq3 => rw [hwalk] at heq3; cases heq3
      next w3b heq3 =>
        rw [hwalk] at heq3
        obtain rfl : w3 = w3b := Option.some.inj heq3
        split
        next heq4 => rw [hc] at heq4; cases heq4
        next c2 heq4 =>
          rw [hc] at heq4
          obtain rfl : c = c2 := Option.some.inj heq4
          rfl

/-- Claim C1: an entity created with new_entity under a parent whose
ancestor chain reaches the root and contains exactly one space master ends
up, after new_entity returns, with the space delegate assigned by that
master — a GameSpaceComponent bound to the instance the master registered,
not the no-op placeholder — together with the matching single-instance 3D
render delegate; and the position of the backing instance, read back
through its handle once the queued mutations are applied, equals the
position requested in the descriptor. -/
theorem new_entity_cascade
    (w : World) (desc : EntityDesc) (parentId : ℕ)
    (js₁ js₂ : List ℕ) (jm : ℕ) (me : Entity) (dm : Vec3)
    (hfresh : w.lookupEnt (nextId w.idState).1 = none)
    (hchain : chainFromB w parentId (js₁ ++ jm :: js₂) = true)
    (hm : w.getEnt jm = some me)
    (hmaster : me.space_component = SpaceComp.gameSpaceMaster dm)
    (h1 : ∀ j ∈ js₁, isMasterAt w j = false)
    (h2 : ∀ j ∈ js₂, isMasterAt w j = false)
    (hlen : js₁.length + (js₂.length + 1) ≤ w.entities.length + 1) :
    ∃ w2, w.newEntity desc parentId = some (w2, w.entities.length) ∧
      (∃ c, w2.getEnt w.entities.length = some c ∧
        c.space_component =
          SpaceComp.gameSpaceComponent dm w.im.instances.length ∧
        c.render_component =
          RenderComp.single3DInstance "cube" w.im.instances.length) ∧
      (∃ inst, w2.im.instances.get? w.im.instances.length = some inst ∧
        ((inst.tickPure).1).position = desc.position) := by
  have hvalid := chainFromB_mem_some w (js₁ ++ jm :: js₂) parentId hchain
  obtain ⟨x, rest, hcons⟩ : ∃ x rest, js₁ ++ jm :: js₂ = x :: rest := by
    cases js₁ with
    | nil => exact ⟨jm, js₂, rfl⟩
    | cons a t => exact ⟨a, t ++ jm :: js₂, rfl⟩
  have hchainHead := hchain
  rw [hcons, chainFromB, Bool.and_eq_true, Bool.and_eq_true] at hchainHead
  obtain ⟨⟨_, hlkw⟩, _⟩ := hchainHead
  rw [decide_eq_true_eq] at hlkw
  obtain ⟨ex, hgx⟩ : ∃ e, w.getEnt x = some e :=
    hvalid x (by rw [hcons]; exact List.mem_cons_self x rest)
  obtain ⟨hltx, _⟩ := List.get?_eq_some.mp hgx
  obtain ⟨hjmlt, _⟩ := List.get?_eq_some.mp hm
  set child : Entity :=
    ⟨(nextId w.idState).1, parentId, [], RenderComp.noRender,
      SpaceComp.noSpaceComponent, desc.components⟩ with hchilddef
  set W1 : World := w.withNewChild desc parentId with hW1def
  have hlk1 : W1.lookupEnt parentId = some x :=
    lookupEnt_withNewChild w desc parentId parentId hfresh x hlkw
  have hgx1 : W1.getEnt x = some ex :=
    getEnt_withNewChild w desc parentId x ex hgx
  have hgc1 : W1.getEnt w.entities.length = some child := by
    show (w.entities ++ [child]).get? w.entities.length = some child
    exact List.get?_concat_length w.entities child
  set WS : World :=
    W1.setEnt x { ex with children := ex.children ++ [w.entities.length] } with hWSdef
  have hxne : x ≠ w.entities.length := Nat.ne_of_lt hltx
  have hgcS : WS.getEnt w.entities.length = some child := by
    show (W1.entities.set x _).get? w.entities.length = some child
    rw [List.get?_set_ne _ _ hxne]
    exact hgc1
  have hW1len : W1.entities.length = w.entities.length + 1 := by
    show (w.entities ++ [child]).length = w.entities.length + 1
    simp
  have hfuel : WS.entities.length = w.entities.length + 1 := by
    show (W1.entities.set x _).length = w.entities.length + 1
    rw [List.length_set]
    exact hW1len
  have hgetW1 : ∀ j, (∃ e0, w.getEnt j = some e0) → W1.getEnt j = w.getEnt j := by
    intro j ⟨e0, he0⟩
    obtain ⟨hlt0, _⟩ := List.get?_eq_some.mp he0
    show (w.entities ++ [child]).get? j = w.entities.get? j
    exact List.get?_append hlt0
  have hgetWS : ∀ j, j ≠ x → WS.getEnt j = W1.getEnt j := by
    intro j hj
    show (W1.entities.set x _).get? j = W1.entities.get? j
    exact List.get?_set_ne _ _ (fun hh => hj hh.symm)
  have hWSx : WS.getEnt x = some { ex with children := ex.children ++ [w.entities.length] } := by
    show (W1.entities.set x _).get? x = _
    rw [List.get?_set_eq_of_lt]
    rw [hW1len]
    exact Nat.lt_succ_of_lt hltx
  have hmS : ∀ j, (∃ e0, w.getEnt j = some e0) → isMasterAt WS j = isMasterAt w j := by
    intro j he0x
    by_cases hjx : j = x
    · subst hjx
      obtain ⟨e0, he0⟩ := he0x
      rw [isMasterAt_of_getEnt WS j _ hWSx, isMasterAt_of_getEnt w j ex hgx]
    · unfold isMasterAt
      rw [hgetWS j hjx, hgetW1 j he0x]
  have h1S : ∀ j ∈ js₁, isMasterAt WS j = false := by
    intro j hj
    rw [hmS j (hvalid j (List.mem_append_left _ hj))]
    exact h1 j hj
  have h2S : ∀ j ∈ js₂, isMasterAt WS j = false := by
    intro j hj
    rw [hmS j (hvalid j (List.mem_append_right _ (List.mem_cons_of_mem jm hj)))]
    exact h2 j hj
  have hne2S : ∀ j ∈ js₂, j ≠ w.entities.length := by
    intro j hj
    obtain ⟨e0, he0⟩ := hvalid j (List.mem_append_right _ (List.mem_cons_of_mem jm hj))
    obtain ⟨hlt0, _⟩ := List.get?_eq_some.mp he0
    exact Nat.ne_of_lt hlt0
  have hchainS : chainFromB WS parentId (js₁ ++ jm :: js₂) = true := by
    have hchain1 : chainFromB W1 parentId (js₁ ++ jm :: js₂) = true :=
      chainFromB_mono w W1
        (fun pid j hl => lookupEnt_withNewChild w desc parentId pid hfresh j hl)
        (fun j e he => getEnt_withNewChild w desc parentId j e he) _ _ hchain
    exact chainFromB_of_worldSim
      (worldSim_setEnt W1 x ex { ex with children := ex.children ++ [w.entities.length] }
        hgx1 rfl rfl) _ _ hchain1
  have hgmS : ∃ me2, WS.getEnt jm = some me2 ∧
      me2.space_component = SpaceComp.gameSpaceMaster dm := by
    by_cases hjx : jm = x
    · subst hjx
      have hme : me = ex := by
        rw [hm] at hgx
        exact Option.some.inj hgx
      refine ⟨{ ex with children := ex.children ++ [w.entities.length] }, hWSx, ?_⟩
      show ex.space_component = _
      rw [← hme]
      exact hmaster
    · refine ⟨me, ?_, hmaster⟩
      rw [hgetWS jm hjx, hgetW1 jm ⟨me, hm⟩]
      exact hm
  obtain ⟨me2, hgmS2, hspace2⟩ := hgmS
  have hwalk := initWalk_cascade js₁ WS.entities.length WS w.entities.length parentId 0
    jm js₂ me2 child dm hchainS hgmS2 hspace2 h1S h2S hgcS hne2S
    (by rw [hfuel]; exact hlen)
  have hcv : (({ WS with im := (WS.im.register_instance {}).1 } : World).setEnt
        w.entities.length
        { child with
            space_component := SpaceComp.gameSpaceComponent dm WS.im.instances.length
            render_component :=
              RenderComp.single3DInstance "cube" WS.im.instances.length }).getEnt
      w.entities.length = some
        { child with
            space_component := SpaceComp.gameSpaceComponent dm WS.im.instances.length
            render_component :=
              RenderComp.single3DInstance "cube" WS.im.instances.length } := by
    show (WS.entities.set w.entities.length _).get? w.entities.length = _
    rw [List.get?_set_eq_of_lt]
    rw [hfuel]
    exact Nat.lt_succ_self _
  have heqn := newEntity_eq w desc parentId x ex _ _ hlk1 hgx1 hwalk hcv
  refine ⟨_, heqn, ?_, ?_⟩
  · exact ⟨_, hcv, rfl, rfl⟩
  · refine ⟨⟨InstanceType.Model,
      [InstanceChange.PositionAdd ⟨desc.position.x, desc.position.y, desc.position.z⟩],
      Vec3.zero, Quat.one, w.im.n_3d_buffer⟩, ?_, ?_⟩
    · show (listModify _ WS.im.instances.length
        (WS.im.instances ++
          [⟨InstanceType.Model, [], Vec3.zero, Quat.one, w.im.n_3d_buffer⟩])).get?
          w.im.instances.length = _
      rw [show (WS.im.instances ++
            [(⟨InstanceType.Model, [], Vec3.zero, Quat.one, w.im.n_3d_buffer⟩ : Instance)]) =
          w.im.instances ++
            [(⟨InstanceType.Model, [], Vec3.zero, Quat.one, w.im.n_3d_buffer⟩ : Instance)]
        from rfl]
      rw [show WS.im.instances.length = w.im.instances.length from rfl]
      rw [listModify_concat]
      exact List.get?_concat_length _ _
    · show ((⟨InstanceType.Model,
        [InstanceChange.PositionAdd ⟨desc.position.x, desc.position.y, desc.position.z⟩],
        Vec3.zero, Quat.one, w.im.n_3d_buffer⟩ : Instance).tickPure).1.position =
        desc.position
      simp [Instance.tickPure, applyChange, Vec3.add, Vec3.zero]

/-- Witness for the C1 theorem: a cube created in the initial world under
the built-in GameSpaceMaster entity gets the master-assigned delegates and
reads back the requested position (1, 2, 0). -/
theorem new_entity_cascade_witness :
    ∃ w2, World.initial.newEntity ⟨⟨1, 2, 0⟩, []⟩ (idChain 0) = some (w2, 2) ∧
      (∃ c, w2.getEnt 2 = some c ∧
        c.space_component = SpaceComp.gameSpaceComponent Vec3.zero 0 ∧
        c.render_component = RenderComp.single3DInstance "cube" 0) ∧
      (∃ inst, w2.im.instances.get? 0 = some inst ∧
        ((inst.tickPure).1).position = (⟨1, 2, 0⟩ : Vec3)) :=
  new_entity_cascade World.initial ⟨⟨1, 2, 0⟩, []⟩ (idChain 0) [] [] 1
    ⟨idChain 0, 0, [], RenderComp.noRender, SpaceComp.gameSpaceMaster Vec3.zero, []⟩
    Vec3.zero (by decide) (by decide) (by decide) rfl (by decide) (by decide)
    (by decide)

end Engine
